import Mathlib

/-!
# Deep-copy layer of package `v1alpha1` (`zz_generated.deepcopy.go`)

The generated clone functions of `VmGroup`, `VmGroupList`, `VmGroupSpec`,
`VmGroupStatus` and `VmOperatorStatus`, embedded over an explicit heap:
every Go statement that reads or writes through a pointer is one read or
write of the heap, a nil or out-of-range access is `none`.

The declarations of the five records and the framework types
(`metav1.TypeMeta`, `metav1.ObjectMeta`, `metav1.ListMeta`) are not part of
the generated file: their field types are parameters (`Decls`), and the
framework's metadata clone functions are parameters (`Framework`), with the
properties assumed of them stated as hypotheses (`Framework.ValuePreserving`,
`Framework.NoSharing`).  A metadata struct is its value fields together with
references to backing stores in the heap; a framework clone reads the source
struct and the stores, and gives the destination struct and the stores after
the call.
-/

namespace V1alpha1

/-- An address inside one region of the heap. -/
abbrev Addr := Nat

/-- The declarations the generated file relies on: the field types of the
records, the content type of a framework backing store, and the Go zero
value of each. -/
structure Decls where
  /-- the fields of `metav1.TypeMeta` (kind and version tag) -/
  TypeMeta : Type
  /-- the value fields of `metav1.ObjectMeta` -/
  MetaFields : Type
  /-- the value fields of `metav1.ListMeta` -/
  ListFields : Type
  /-- the content of one backing store owned by a metadata value -/
  Cell : Type
  /-- the fields of `VmGroupSpec` -/
  SpecFields : Type
  /-- the fields of `VmOperatorStatus` -/
  OperatorFields : Type
  /-- the fields of `VmGroupStatus` other than `VmOperator` -/
  StatusFields : Type
  zeroTypeMeta : TypeMeta
  zeroMetaFields : MetaFields
  zeroListFields : ListFields
  zeroCell : Cell
  zeroSpecFields : SpecFields
  zeroOperatorFields : OperatorFields
  zeroStatusFields : StatusFields

/-- The struct `metav1.ObjectMeta` as it lies inside a `VmGroup`: value
fields, and the references (maps, slices, pointers) to backing stores. -/
structure ObjectMeta (D : Decls) where
  fields : D.MetaFields
  refs : List Addr

/-- The struct `metav1.ListMeta` as it lies inside a `VmGroupList`. -/
structure ListMeta (D : Decls) where
  fields : D.ListFields
  refs : List Addr

/-- The record `VmGroupSpec`: value fields only. -/
structure VmGroupSpec (D : Decls) where
  fields : D.SpecFields

/-- The record `VmOperatorStatus`: value fields only. -/
structure VmOperatorStatus (D : Decls) where
  fields : D.OperatorFields

/-- The record `VmGroupStatus`: a `VmOperatorStatus` held by value, and
value fields. -/
structure VmGroupStatus (D : Decls) where
  VmOperator : VmOperatorStatus D
  fields : D.StatusFields

/-- The struct `VmGroup`. -/
structure VmGroup (D : Decls) where
  TypeMeta : D.TypeMeta
  ObjectMeta : ObjectMeta D
  Spec : VmGroupSpec D
  Status : VmGroupStatus D

/-- A non-nil slice header `[]VmGroup`: backing array, offset of the first
element in it, and length. -/
structure Slice where
  arr : Addr
  off : Nat
  len : Nat
deriving DecidableEq, Repr

/-- The struct `VmGroupList`; `Items` is `none` for the nil slice. -/
structure VmGroupList (D : Decls) where
  TypeMeta : D.TypeMeta
  ListMeta : ListMeta D
  Items : Option Slice

/-- A non-nil `*VmGroup`: an object of its own, or an element of a backing
array. -/
inductive GroupPtr where
  | obj (a : Addr)
  | elem (arr : Addr) (i : Nat)
deriving DecidableEq, Repr

/-- A non-nil `*VmGroupSpec`: an object of its own, or the `Spec` field of
a `VmGroup`. -/
inductive SpecPtr where
  | obj (a : Addr)
  | ofGroup (g : GroupPtr)
deriving DecidableEq, Repr

/-- A non-nil `*VmGroupStatus`: an object of its own, or the `Status` field
of a `VmGroup`. -/
inductive StatusPtr where
  | obj (a : Addr)
  | ofGroup (g : GroupPtr)
deriving DecidableEq, Repr

/-- A non-nil `*VmOperatorStatus`: an object of its own, or the `VmOperator`
field of a `VmGroupStatus`. -/
inductive OperatorPtr where
  | obj (a : Addr)
  | ofStatus (s : StatusPtr)
deriving DecidableEq, Repr

/-- The heap: one region per kind of allocation, an address is an index. -/
structure Heap (D : Decls) where
  groups : List (VmGroup D)
  lists : List (VmGroupList D)
  arrays : List (List (VmGroup D))
  cells : List D.Cell
  specs : List (VmGroupSpec D)
  statuses : List (VmGroupStatus D)
  operators : List (VmOperatorStatus D)

/-- The framework's clone functions `ObjectMeta.DeepCopyInto` and
`ListMeta.DeepCopyInto`: from the source struct, the destination struct as
it is before the call, and the backing stores, to the destination struct
after the call and the backing stores after the call.  The code passes
addresses; a function of the struct values describes a call whose
destination is not its source.  It does not tell a call whose destination
is the source itself from a call into another struct with the same content,
so what the framework leaves in the metadata of a struct cloned into itself
is outside this description. -/
structure Framework (D : Decls) where
  objectMetaDeepCopyInto :
    ObjectMeta D → ObjectMeta D → List D.Cell → ObjectMeta D × List D.Cell
  listMetaDeepCopyInto :
    ListMeta D → ListMeta D → List D.Cell → ListMeta D × List D.Cell

/-- A `runtime.Object` interface value: the nil interface, or a dynamic type
with a pointer of that type, which may itself be nil. -/
inductive Object where
  | nil
  | vmGroup (p : Option GroupPtr)
  | vmGroupList (p : Option Addr)
deriving DecidableEq, Repr

section Zero
variable (D : Decls)

/-- The zero value of `VmGroupSpec`. -/
def zeroSpec : VmGroupSpec D := ⟨D.zeroSpecFields⟩

/-- The zero value of `VmOperatorStatus`. -/
def zeroOperator : VmOperatorStatus D := ⟨D.zeroOperatorFields⟩

/-- The zero value of `VmGroupStatus`. -/
def zeroStatus : VmGroupStatus D := ⟨zeroOperator D, D.zeroStatusFields⟩

/-- The zero value of `VmGroup`. -/
def zeroGroup : VmGroup D :=
  ⟨D.zeroTypeMeta, ⟨D.zeroMetaFields, []⟩, zeroSpec D, zeroStatus D⟩

/-- The zero value of `VmGroupList`. -/
def zeroList : VmGroupList D := ⟨D.zeroTypeMeta, ⟨D.zeroListFields, []⟩, none⟩

end Zero

section Memory
variable {D : Decls}

/-- Dereference a `*VmGroup`. -/
def readGroup (h : Heap D) : GroupPtr → Option (VmGroup D)
  | .obj a => h.groups[a]?
  | .elem arr i => (h.arrays[arr]?).bind (fun xs => xs[i]?)

/-- Store through a `*VmGroup`. -/
def writeGroup (h : Heap D) (p : GroupPtr) (v : VmGroup D) : Option (Heap D) :=
  match p with
  | .obj a =>
    if a < h.groups.length then some { h with groups := h.groups.set a v } else none
  | .elem arr i =>
    match h.arrays[arr]? with
    | some xs =>
      if i < xs.length then some { h with arrays := h.arrays.set arr (xs.set i v) }
      else none
    | none => none

/-- Assign to fields of the struct behind a `*VmGroup`. -/
def modifyGroup (h : Heap D) (p : GroupPtr) (f : VmGroup D → VmGroup D) :
    Option (Heap D) :=
  (readGroup h p).bind (fun o => writeGroup h p (f o))

/-- Dereference a `*VmGroupList`. -/
def readList (h : Heap D) (a : Addr) : Option (VmGroupList D) := h.lists[a]?

/-- Store through a `*VmGroupList`. -/
def writeList (h : Heap D) (a : Addr) (l : VmGroupList D) : Option (Heap D) :=
  if a < h.lists.length then some { h with lists := h.lists.set a l } else none

/-- Assign to fields of the struct behind a `*VmGroupList`. -/
def modifyList (h : Heap D) (a : Addr) (f : VmGroupList D → VmGroupList D) :
    Option (Heap D) :=
  (readList h a).bind (fun o => writeList h a (f o))

/-- Dereference a `*VmGroupSpec`. -/
def readSpec (h : Heap D) : SpecPtr → Option (VmGroupSpec D)
  | .obj a => h.specs[a]?
  | .ofGroup g => (readGroup h g).map (fun v => v.Spec)

/-- Store through a `*VmGroupSpec`. -/
def writeSpec (h : Heap D) (p : SpecPtr) (s : VmGroupSpec D) : Option (Heap D) :=
  match p with
  | .obj a =>
    if a < h.specs.length then some { h with specs := h.specs.set a s } else none
  | .ofGroup g => modifyGroup h g (fun v => { v with Spec := s })

/-- Dereference a `*VmGroupStatus`. -/
def readStatus (h : Heap D) : StatusPtr → Option (VmGroupStatus D)
  | .obj a => h.statuses[a]?
  | .ofGroup g => (readGroup h g).map (fun v => v.Status)

/-- Store through a `*VmGroupStatus`. -/
def writeStatus (h : Heap D) (p : StatusPtr) (s : VmGroupStatus D) :
    Option (Heap D) :=
  match p with
  | .obj a =>
    if a < h.statuses.length then some { h with statuses := h.statuses.set a s }
    else none
  | .ofGroup g => modifyGroup h g (fun v => { v with Status := s })

/-- Assign to fields of the struct behind a `*VmGroupStatus`. -/
def modifyStatus (h : Heap D) (p : StatusPtr)
    (f : VmGroupStatus D → VmGroupStatus D) : Option (Heap D) :=
  (readStatus h p).bind (fun o => writeStatus h p (f o))

/-- Dereference a `*VmOperatorStatus`. -/
def readOperator (h : Heap D) : OperatorPtr → Option (VmOperatorStatus D)
  | .obj a => h.operators[a]?
  | .ofStatus s => (readStatus h s).map (fun v => v.VmOperator)

/-- Store through a `*VmOperatorStatus`. -/
def writeOperator (h : Heap D) (p : OperatorPtr) (s : VmOperatorStatus D) :
    Option (Heap D) :=
  match p with
  | .obj a =>
    if a < h.operators.length then some { h with operators := h.operators.set a s }
    else none
  | .ofStatus q => modifyStatus h q (fun v => { v with VmOperator := s })

/-- The allocation `new(VmGroup)`. -/
def newGroup (h : Heap D) : GroupPtr × Heap D :=
  (.obj h.groups.length, { h with groups := h.groups ++ [zeroGroup D] })

/-- The allocation `new(VmGroupList)`. -/
def newList (h : Heap D) : Addr × Heap D :=
  (h.lists.length, { h with lists := h.lists ++ [zeroList D] })

/-- The allocation `new(VmGroupSpec)`. -/
def newSpec (h : Heap D) : SpecPtr × Heap D :=
  (.obj h.specs.length, { h with specs := h.specs ++ [zeroSpec D] })

/-- The allocation `new(VmGroupStatus)`. -/
def newStatus (h : Heap D) : StatusPtr × Heap D :=
  (.obj h.statuses.length, { h with statuses := h.statuses ++ [zeroStatus D] })

/-- The allocation `new(VmOperatorStatus)`. -/
def newOperator (h : Heap D) : OperatorPtr × Heap D :=
  (.obj h.operators.length, { h with operators := h.operators ++ [zeroOperator D] })

/-- The allocation `make([]VmGroup, n)`. -/
def makeItems (h : Heap D) (n : Nat) : Slice × Heap D :=
  (⟨h.arrays.length, 0, n⟩,
   { h with arrays := h.arrays ++ [List.replicate n (zeroGroup D)] })

/-- The address `&(*s)[i]` of element `i` of the `Items` of the list at
`a`; indexing a nil slice or past the length fails. -/
def itemPtr (h : Heap D) (a : Addr) (i : Nat) : Option GroupPtr :=
  (readList h a).bind (fun l =>
    match l.Items with
    | none => none
    | some s => if i < s.len then some (.elem s.arr (s.off + i)) else none)

end Memory

section Clone
variable {D : Decls}

/-- `func (in *VmGroupSpec) DeepCopyInto(out *VmGroupSpec)`. -/
def VmGroupSpec.DeepCopyInto (h : Heap D) (inp out : SpecPtr) : Option (Heap D) :=
  -- *out = *in
  (readSpec h inp).bind (fun v => writeSpec h out v)

/-- `func (in *VmGroupSpec) DeepCopy() *VmGroupSpec`. -/
def VmGroupSpec.DeepCopy (h : Heap D) :
    Option SpecPtr → Option (Option SpecPtr × Heap D)
  -- if in == nil { return nil }
  | none => some (none, h)
  | some inp =>
    -- out := new(VmGroupSpec)
    let a := newSpec h
    -- in.DeepCopyInto(out); return out
    (VmGroupSpec.DeepCopyInto a.2 inp a.1).map (fun h1 => (some a.1, h1))

/-- `func (in *VmOperatorStatus) DeepCopyInto(out *VmOperatorStatus)`. -/
def VmOperatorStatus.DeepCopyInto (h : Heap D) (inp out : OperatorPtr) :
    Option (Heap D) :=
  -- *out = *in
  (readOperator h inp).bind (fun v => writeOperator h out v)

/-- `func (in *VmOperatorStatus) DeepCopy() *VmOperatorStatus`. -/
def VmOperatorStatus.DeepCopy (h : Heap D) :
    Option OperatorPtr → Option (Option OperatorPtr × Heap D)
  -- if in == nil { return nil }
  | none => some (none, h)
  | some inp =>
    -- out := new(VmOperatorStatus)
    let a := newOperator h
    -- in.DeepCopyInto(out); return out
    (VmOperatorStatus.DeepCopyInto a.2 inp a.1).map (fun h1 => (some a.1, h1))

/-- `func (in *VmGroupStatus) DeepCopyInto(out *VmGroupStatus)`. -/
def VmGroupStatus.DeepCopyInto (h : Heap D) (inp out : StatusPtr) :
    Option (Heap D) := do
  -- *out = *in
  let v ← readStatus h inp
  let h ← writeStatus h out v
  -- out.VmOperator = in.VmOperator
  let v ← readStatus h inp
  modifyStatus h out (fun o => { o with VmOperator := v.VmOperator })

/-- `func (in *VmGroupStatus) DeepCopy() *VmGroupStatus`. -/
def VmGroupStatus.DeepCopy (h : Heap D) :
    Option StatusPtr → Option (Option StatusPtr × Heap D)
  -- if in == nil { return nil }
  | none => some (none, h)
  | some inp =>
    -- out := new(VmGroupStatus)
    let a := newStatus h
    -- in.DeepCopyInto(out); return out
    (VmGroupStatus.DeepCopyInto a.2 inp a.1).map (fun h1 => (some a.1, h1))

/-- `func (in *VmGroup) DeepCopyInto(out *VmGroup)`. -/
def VmGroup.DeepCopyInto (F : Framework D) (h : Heap D) (inp out : GroupPtr) :
    Option (Heap D) := do
  -- *out = *in
  let v ← readGroup h inp
  let h ← writeGroup h out v
  -- out.TypeMeta = in.TypeMeta
  let v ← readGroup h inp
  let h ← modifyGroup h out (fun o => { o with TypeMeta := v.TypeMeta })
  -- in.ObjectMeta.DeepCopyInto(&out.ObjectMeta)
  let v ← readGroup h inp
  let o ← readGroup h out
  let r := F.objectMetaDeepCopyInto v.ObjectMeta o.ObjectMeta h.cells
  let h ← modifyGroup { h with cells := r.2 } out (fun o => { o with ObjectMeta := r.1 })
  -- out.Spec = in.Spec
  let v ← readGroup h inp
  let h ← modifyGroup h out (fun o => { o with Spec := v.Spec })
  -- out.Status = in.Status
  let v ← readGroup h inp
  modifyGroup h out (fun o => { o with Status := v.Status })

/-- `func (in *VmGroup) DeepCopy() *VmGroup`. -/
def VmGroup.DeepCopy (F : Framework D) (h : Heap D) :
    Option GroupPtr → Option (Option GroupPtr × Heap D)
  -- if in == nil { return nil }
  | none => some (none, h)
  | some inp =>
    -- out := new(VmGroup)
    let a := newGroup h
    -- in.DeepCopyInto(out); return out
    (VmGroup.DeepCopyInto F a.2 inp a.1).map (fun h1 => (some a.1, h1))

/-- `func (in *VmGroup) DeepCopyObject() runtime.Object`. -/
def VmGroup.DeepCopyObject (F : Framework D) (h : Heap D) (inp : Option GroupPtr) :
    Option (Object × Heap D) :=
  -- if c := in.DeepCopy(); c != nil { return c }; return nil
  (VmGroup.DeepCopy F h inp).map (fun r =>
    match r.1 with
    | some c => (Object.vmGroup (some c), r.2)
    | none => (Object.nil, r.2))

/-- The loop `for i := range *in { (*in)[i].DeepCopyInto(&(*out)[i]) }` of
`VmGroupList.DeepCopyInto`, where `in` and `out` are the addresses of the
`Items` fields of the lists at `inp` and `out`: `k` iterations are left and
the next index is `i`. -/
def VmGroupList.copyItems (F : Framework D) (inp out : Addr) :
    Nat → Nat → Heap D → Option (Heap D)
  | 0, _, h => some h
  | k + 1, i, h => do
    let src ← itemPtr h inp i
    let dst ← itemPtr h out i
    let h ← VmGroup.DeepCopyInto F h src dst
    VmGroupList.copyItems F inp out k (i + 1) h

/-- `func (in *VmGroupList) DeepCopyInto(out *VmGroupList)`. -/
def VmGroupList.DeepCopyInto (F : Framework D) (h : Heap D) (inp out : Addr) :
    Option (Heap D) := do
  -- *out = *in
  let l ← readList h inp
  let h ← writeList h out l
  -- out.TypeMeta = in.TypeMeta
  let l ← readList h inp
  let h ← modifyList h out (fun o => { o with TypeMeta := l.TypeMeta })
  -- in.ListMeta.DeepCopyInto(&out.ListMeta)
  let l ← readList h inp
  let o ← readList h out
  let r := F.listMetaDeepCopyInto l.ListMeta o.ListMeta h.cells
  let h ← modifyList { h with cells := r.2 } out (fun o => { o with ListMeta := r.1 })
  -- if in.Items != nil
  let l ← readList h inp
  match l.Items with
  | none => pure h
  | some s =>
    -- in, out := &in.Items, &out.Items
    -- *out = make([]VmGroup, len(*in))
    let m := makeItems h s.len
    let h ← modifyList m.2 out (fun o => { o with Items := some m.1 })
    -- for i := range *in
    let l ← readList h inp
    match l.Items with
    | none => pure h
    | some t => VmGroupList.copyItems F inp out t.len 0 h

/-- `func (in *VmGroupList) DeepCopy() *VmGroupList`. -/
def VmGroupList.DeepCopy (F : Framework D) (h : Heap D) :
    Option Addr → Option (Option Addr × Heap D)
  -- if in == nil { return nil }
  | none => some (none, h)
  | some inp =>
    -- out := new(VmGroupList)
    let a := newList h
    -- in.DeepCopyInto(out); return out
    (VmGroupList.DeepCopyInto F a.2 inp a.1).map (fun h1 => (some a.1, h1))

/-- `func (in *VmGroupList) DeepCopyObject() runtime.Object`. -/
def VmGroupList.DeepCopyObject (F : Framework D) (h : Heap D) (inp : Option Addr) :
    Option (Object × Heap D) :=
  -- if c := in.DeepCopy(); c != nil { return c }; return nil
  (VmGroupList.DeepCopy F h inp).map (fun r =>
    match r.1 with
    | some c => (Object.vmGroupList (some c), r.2)
    | none => (Object.nil, r.2))

end Clone

section Values
variable {D : Decls}

/-- The content of the backing stores behind a list of references, `none`
for a reference to no allocated store. -/
def deref (cs : List D.Cell) (refs : List Addr) : List (Option D.Cell) :=
  refs.map (fun r => cs[r]?)

/-- Every reference is to an allocated backing store. -/
def Allocated (cs : List D.Cell) (refs : List Addr) : Prop :=
  ∀ r ∈ refs, r < cs.length

instance (cs : List D.Cell) (refs : List Addr) : Decidable (Allocated cs refs) := by
  unfold Allocated
  infer_instance

/-- The value of an `ObjectMeta`: its value fields and the content of its
backing stores. -/
def ObjectMeta.value (cs : List D.Cell) (m : ObjectMeta D) :
    D.MetaFields × List (Option D.Cell) :=
  (m.fields, deref cs m.refs)

/-- The value of a `ListMeta`. -/
def ListMeta.value (cs : List D.Cell) (m : ListMeta D) :
    D.ListFields × List (Option D.Cell) :=
  (m.fields, deref cs m.refs)

/-- The value of a `VmGroup`, field by field. -/
structure GroupValue (D : Decls) where
  TypeMeta : D.TypeMeta
  ObjectMeta : D.MetaFields × List (Option D.Cell)
  Spec : VmGroupSpec D
  Status : VmGroupStatus D

/-- The value of a `VmGroup` struct over given backing stores. -/
def VmGroup.value (cs : List D.Cell) (v : VmGroup D) : GroupValue D :=
  ⟨v.TypeMeta, v.ObjectMeta.value cs, v.Spec, v.Status⟩

/-- The value of the `VmGroup` behind a pointer. -/
def groupValue (h : Heap D) (p : GroupPtr) : Option (GroupValue D) :=
  (readGroup h p).map (VmGroup.value h.cells)

/-- The elements of a slice, in order; `none` if the header does not lie
inside an allocated backing array. -/
def readItems (h : Heap D) (s : Slice) : Option (List (VmGroup D)) :=
  (h.arrays[s.arr]?).bind (fun xs =>
    if s.off + s.len ≤ xs.length then some ((xs.drop s.off).take s.len) else none)

/-- The value of a `VmGroupList`, field by field; `Items` is `none` for the
nil slice. -/
structure ListValue (D : Decls) where
  TypeMeta : D.TypeMeta
  ListMeta : D.ListFields × List (Option D.Cell)
  Items : Option (List (GroupValue D))

/-- The value of the `VmGroupList` behind a pointer. -/
def listValue (h : Heap D) (a : Addr) : Option (ListValue D) :=
  (readList h a).bind (fun l =>
    match l.Items with
    | none => some ⟨l.TypeMeta, l.ListMeta.value h.cells, none⟩
    | some s =>
      (readItems h s).map (fun xs =>
        ⟨l.TypeMeta, l.ListMeta.value h.cells, some (xs.map (VmGroup.value h.cells))⟩))

/-- The framework's clones are value-preserving: cloning a metadata struct
whose references are allocated gives the destination the value of the
source, and changes no backing store that existed before the call. -/
structure Framework.ValuePreserving (F : Framework D) : Prop where
  object_value : ∀ m o cs, Allocated cs m.refs →
    (F.objectMetaDeepCopyInto m o cs).1.value (F.objectMetaDeepCopyInto m o cs).2
      = m.value cs
  object_keeps : ∀ m o cs, Allocated cs m.refs → ∀ a : Addr, a < cs.length →
    (F.objectMetaDeepCopyInto m o cs).2[a]? = cs[a]?
  list_value : ∀ m o cs, Allocated cs m.refs →
    (F.listMetaDeepCopyInto m o cs).1.value (F.listMetaDeepCopyInto m o cs).2
      = m.value cs
  list_keeps : ∀ m o cs, Allocated cs m.refs → ∀ a : Addr, a < cs.length →
    (F.listMetaDeepCopyInto m o cs).2[a]? = cs[a]?

/-- The framework's clones share no backing store with their input: cloning
a metadata struct whose references are allocated gives the destination no
reference that the source holds. -/
structure Framework.NoSharing (F : Framework D) : Prop where
  object_disjoint : ∀ m o cs, Allocated cs m.refs →
    ∀ r ∈ (F.objectMetaDeepCopyInto m o cs).1.refs, r ∉ m.refs
  list_disjoint : ∀ m o cs, Allocated cs m.refs →
    ∀ r ∈ (F.listMetaDeepCopyInto m o cs).1.refs, r ∉ m.refs

/-- The heap after a store through a valid `*VmGroup`. -/
def putGroup (h : Heap D) : GroupPtr → VmGroup D → Heap D
  | .obj a, v => { h with groups := h.groups.set a v }
  | .elem arr i, v =>
    { h with arrays := h.arrays.set arr (((h.arrays[arr]?).getD []).set i v) }

/-- The clones of a sequence of `VmGroup` structs, made one after the other
over the backing stores `cs`, and the backing stores after the last. -/
def cloneItems (F : Framework D) : List D.Cell → List (VmGroup D) →
    List (VmGroup D) × List D.Cell
  | cs, [] => ([], cs)
  | cs, x :: xs =>
    let r := F.objectMetaDeepCopyInto x.ObjectMeta x.ObjectMeta cs
    let rest := cloneItems F r.2 xs
    ({ x with ObjectMeta := r.1 } :: rest.1, rest.2)

/-- A `*VmGroupList` is valid: it points to a list whose `Items`, when not
nil, lie inside an allocated backing array. -/
def ValidList (h : Heap D) (a : Addr) : Prop :=
  ∃ L, readList h a = some L ∧ ∀ s, L.Items = some s → (readItems h s).isSome

/-- The references of the list behind a pointer are allocated: the pointer
is valid, and the references of its `ListMeta` and of the `ObjectMeta` of
each of its `Items` are to allocated backing stores. -/
def AllocatedList (h : Heap D) (a : Addr) : Prop :=
  ∃ L, readList h a = some L ∧ Allocated h.cells L.ListMeta.refs ∧
    ∀ s, L.Items = some s →
      ∃ xs, readItems h s = some xs ∧ ∀ x ∈ xs, Allocated h.cells x.ObjectMeta.refs

/-- Overwrite the content of the backing store `r` (a write through a
map, slice or pointer held by a metadata struct). -/
def writeCell (h : Heap D) (r : Addr) (x : D.Cell) : Heap D :=
  { h with cells := h.cells.set r x }

/-- A framework clone that copies every backing store of the source into a
newly allocated one. -/
def Framework.copying (D : Decls) : Framework D where
  objectMetaDeepCopyInto := fun m _ cs =>
    (⟨m.fields, List.range' cs.length m.refs.length⟩,
      cs ++ m.refs.map (fun r => (cs[r]?).getD D.zeroCell))
  listMetaDeepCopyInto := fun m _ cs =>
    (⟨m.fields, List.range' cs.length m.refs.length⟩,
      cs ++ m.refs.map (fun r => (cs[r]?).getD D.zeroCell))

/-- Declarations with natural numbers for every field type. -/
@[reducible] def natDecls : Decls :=
  ⟨Nat, Nat, Nat, Nat, Nat, Nat, Nat, 0, 0, 0, 0, 0, 0, 0⟩

/-- A `VmGroup` with one backing store. -/
def demoGroup : VmGroup natDecls := ⟨1, ⟨2, [0]⟩, ⟨3⟩, ⟨⟨4⟩, 5⟩⟩

/-- A `VmGroup` with two backing stores. -/
def demoGroup2 : VmGroup natDecls := ⟨11, ⟨12, [1, 0]⟩, ⟨13⟩, ⟨⟨14⟩, 15⟩⟩

/-- A heap with one `VmGroup` object, a list whose `Items` are the two
middle elements of a backing array of four, a list with nil `Items`, a list
with empty `Items`, and one object of each leaf record. -/
def demoHeap : Heap natDecls where
  groups := [demoGroup]
  lists := [⟨7, ⟨8, [1]⟩, some ⟨0, 1, 2⟩⟩, ⟨7, ⟨8, [1]⟩, none⟩, ⟨7, ⟨8, []⟩, some ⟨0, 4, 0⟩⟩]
  arrays := [[demoGroup, demoGroup, demoGroup2, demoGroup2]]
  cells := [100, 200]
  specs := [⟨21⟩]
  statuses := [⟨⟨22⟩, 23⟩]
  operators := [⟨24⟩]

/-- The clone of a `VmGroup` without the reassignments of `TypeMeta`, `Spec`
and `Status`: only `*out = *in`, then the `ObjectMeta` deep copy into
`out.ObjectMeta`. -/
def VmGroup.DeepCopyIntoReduced (F : Framework D) (h : Heap D) (inp out : GroupPtr) :
    Option (Heap D) := do
  -- *out = *in
  let v ← readGroup h inp
  let h ← writeGroup h out v
  -- in.ObjectMeta.DeepCopyInto(&out.ObjectMeta)
  let v ← readGroup h inp
  let o ← readGroup h out
  let r := F.objectMetaDeepCopyInto v.ObjectMeta o.ObjectMeta h.cells
  modifyGroup { h with cells := r.2 } out (fun o => { o with ObjectMeta := r.1 })

/-- The clone of a `VmGroupList` without the reassignment of `TypeMeta`. -/
def VmGroupList.DeepCopyIntoReduced (F : Framework D) (h : Heap D) (inp out : Addr) :
    Option (Heap D) := do
  -- *out = *in
  let l ← readList h inp
  let h ← writeList h out l
  -- in.ListMeta.DeepCopyInto(&out.ListMeta)
  let l ← readList h inp
  let o ← readList h out
  let r := F.listMetaDeepCopyInto l.ListMeta o.ListMeta h.cells
  let h ← modifyList { h with cells := r.2 } out (fun o => { o with ListMeta := r.1 })
  -- if in.Items != nil
  let l ← readList h inp
  match l.Items with
  | none => pure h
  | some s =>
    -- in, out := &in.Items, &out.Items
    -- *out = make([]VmGroup, len(*in))
    let m := makeItems h s.len
    let h ← modifyList m.2 out (fun o => { o with Items := some m.1 })
    -- for i := range *in
    let l ← readList h inp
    match l.Items with
    | none => pure h
    | some t => VmGroupList.copyItems F inp out t.len 0 h

/-- The clone of a `VmGroupStatus` without the reassignment of `VmOperator`:
the plain whole-struct copy `*out = *in`. -/
def VmGroupStatus.DeepCopyIntoReduced (h : Heap D) (inp out : StatusPtr) :
    Option (Heap D) :=
  -- *out = *in
  (readStatus h inp).bind (fun v => writeStatus h out v)

/-- The framework's clones fully overwrite their destination: what they
leave in it and in the backing stores does not depend on what the
destination held before the call. -/
structure Framework.Overwrites (F : Framework D) : Prop where
  object_overwrites : ∀ m o o' cs,
    F.objectMetaDeepCopyInto m o cs = F.objectMetaDeepCopyInto m o' cs
  list_overwrites : ∀ m o o' cs,
    F.listMetaDeepCopyInto m o cs = F.listMetaDeepCopyInto m o' cs

/-- The `Items` of the lists at `a` and `b` are both non-nil slices of
length `n` that lie inside allocated backing arrays: every index below `n`
is in range of both. -/
def ItemsInRange (h : Heap D) (a b : Addr) (n : Nat) : Prop :=
  ∃ la lb sa sb, readList h a = some la ∧ la.Items = some sa ∧ sa.len = n ∧
    (readItems h sa).isSome ∧ readList h b = some lb ∧ lb.Items = some sb ∧
    sb.len = n ∧ (readItems h sb).isSome

end Values

/-! ## Reading and writing the heap -/

section MemoryLemmas
variable {D : Decls}

theorem writeGroup_eq_put {h : Heap D} {p : GroupPtr} {o : VmGroup D}
    (hp : readGroup h p = some o) (v : VmGroup D) :
    writeGroup h p v = some (putGroup h p v) := by
  cases p with
  | obj a =>
    have ha : a < h.groups.length := by
      by_contra hc
      simp [readGroup, List.getElem?_eq_none (Nat.le_of_not_lt hc)] at hp
    simp [writeGroup, putGroup, ha]
  | elem arr i =>
    simp only [readGroup] at hp
    cases hx : h.arrays[arr]? with
    | none => simp [hx] at hp
    | some xs =>
      simp only [hx, Option.some_bind] at hp
      have hi : i < xs.length := by
        by_contra hc
        simp [List.getElem?_eq_none (Nat.le_of_not_lt hc)] at hp
      simp [writeGroup, putGroup, hx, hi]

theorem readGroup_put_same {h : Heap D} {p : GroupPtr} {o : VmGroup D}
    (hp : readGroup h p = some o) (v : VmGroup D) :
    readGroup (putGroup h p v) p = some v := by
  cases p with
  | obj a =>
    have ha : a < h.groups.length := by
      by_contra hc
      simp [readGroup, List.getElem?_eq_none (Nat.le_of_not_lt hc)] at hp
    simp [readGroup, putGroup, ha]
  | elem arr i =>
    simp only [readGroup] at hp
    cases hx : h.arrays[arr]? with
    | none => simp [hx] at hp
    | some xs =>
      simp only [hx, Option.some_bind] at hp
      have hi : i < xs.length := by
        by_contra hc
        simp [List.getElem?_eq_none (Nat.le_of_not_lt hc)] at hp
      have ha : arr < h.arrays.length := by
        by_contra hc
        simp [List.getElem?_eq_none (Nat.le_of_not_lt hc)] at hx
      simp [readGroup, putGroup, hx, hi, ha]

theorem readGroup_put_other (h : Heap D) {p q : GroupPtr} (hpq : q ≠ p)
    (v : VmGroup D) : readGroup (putGroup h p v) q = readGroup h q := by
  cases p with
  | obj a =>
    cases q with
    | obj b =>
      have hab : a ≠ b := fun e => hpq (by rw [e])
      simp [readGroup, putGroup, List.getElem?_set_ne hab]
    | elem arr i => simp [readGroup, putGroup]
  | elem arr i =>
    cases q with
    | obj b => simp [readGroup, putGroup]
    | elem arr2 j =>
      by_cases harr : arr = arr2
      · subst harr
        have hij : i ≠ j := fun e => hpq (by rw [e])
        simp only [readGroup, putGroup]
        cases hx : h.arrays[arr]? with
        | none =>
          have : h.arrays.length ≤ arr := by
            by_contra hc
            have := List.getElem?_eq_getElem (Nat.lt_of_not_le hc)
            simp [this] at hx
          simp [List.getElem?_eq_none, this]
        | some xs =>
          have ha : arr < h.arrays.length := by
            by_contra hc
            simp [List.getElem?_eq_none (Nat.le_of_not_lt hc)] at hx
          simp [ha, List.getElem?_set_ne hij]
      · simp [readGroup, putGroup, List.getElem?_set_ne harr]

theorem putGroup_put (h : Heap D) (p : GroupPtr) (v w : VmGroup D) :
    putGroup (putGroup h p v) p w = putGroup h p w := by
  cases p with
  | obj a => simp [putGroup]
  | elem arr i =>
    by_cases ha : arr < h.arrays.length
    · simp [putGroup, ha]
    · have hn : h.arrays[arr]? = none := List.getElem?_eq_none (Nat.le_of_not_lt ha)
      have hs : ∀ x, h.arrays.set arr x = h.arrays := fun x =>
        List.set_eq_of_length_le (Nat.le_of_not_lt ha)
      simp [putGroup, hn, hs]

theorem readGroup_cells (h : Heap D) (p : GroupPtr) (cs : List D.Cell) :
    readGroup { h with cells := cs } p = readGroup h p := by
  cases p <;> rfl

theorem modifyGroup_eq_put {h : Heap D} {p : GroupPtr} {o : VmGroup D}
    (hp : readGroup h p = some o) (f : VmGroup D → VmGroup D) :
    modifyGroup h p f = some (putGroup h p (f o)) := by
  simp [modifyGroup, hp, writeGroup_eq_put hp]

end MemoryLemmas

/-! ## What the clone functions compute -/

section CloneLemmas
variable {D : Decls}

theorem putGroup_cells_get (h : Heap D) (p : GroupPtr) (v : VmGroup D) :
    (putGroup h p v).cells = h.cells := by
  cases p <;> rfl

theorem cells_putGroup (h : Heap D) (p : GroupPtr) (v : VmGroup D) (cs : List D.Cell) :
    ({ putGroup h p v with cells := cs } : Heap D) = putGroup { h with cells := cs } p v := by
  cases p <;> rfl

theorem groupDeepCopyInto_eq (F : Framework D) {h : Heap D} {inp out : GroupPtr}
    {v o : VmGroup D} (hin : readGroup h inp = some v) (hout : readGroup h out = some o) :
    VmGroup.DeepCopyInto F h inp out
      = some (putGroup
          { h with cells := (F.objectMetaDeepCopyInto v.ObjectMeta v.ObjectMeta h.cells).2 }
          out
          { v with ObjectMeta :=
              (F.objectMetaDeepCopyInto v.ObjectMeta v.ObjectMeta h.cells).1 }) := by
  obtain ⟨tm, om, sp, st⟩ := v
  have same : ∀ (g : Heap D) (w : VmGroup D), (readGroup g out).isSome →
      readGroup (putGroup g out w) out = some w := by
    intro g w hg
    obtain ⟨x, hx⟩ := Option.isSome_iff_exists.mp hg
    exact readGroup_put_same hx w
  have wr : ∀ (g : Heap D) (w : VmGroup D), (readGroup g out).isSome →
      writeGroup g out w = some (putGroup g out w) := by
    intro g w hg
    obtain ⟨x, hx⟩ := Option.isSome_iff_exists.mp hg
    exact writeGroup_eq_put hx w
  have ho : (readGroup h out).isSome := by simp [hout]
  by_cases hio : inp = out
  · subst hio
    simp [VmGroup.DeepCopyInto, Option.bind_eq_bind, hin, Option.some_bind, modifyGroup,
      same, wr, putGroup_put, readGroup_cells, cells_putGroup, putGroup_cells_get]
  · have other : ∀ (g : Heap D) (w : VmGroup D),
        readGroup (putGroup g out w) inp = readGroup g inp :=
      fun g w => readGroup_put_other g hio w
    simp [VmGroup.DeepCopyInto, Option.bind_eq_bind, hin, Option.some_bind, modifyGroup,
      same, wr, other, ho, putGroup_put, readGroup_cells, cells_putGroup, putGroup_cells_get]

theorem readGroup_lt {h : Heap D} {a : Addr} {v : VmGroup D}
    (hp : readGroup h (.obj a) = some v) : a < h.groups.length := by
  by_contra hc
  simp [readGroup, List.getElem?_eq_none (Nat.le_of_not_lt hc)] at hp

theorem readGroup_newGroup {h : Heap D} {p : GroupPtr} {v : VmGroup D}
    (hp : readGroup h p = some v) : readGroup (newGroup h).2 p = some v := by
  cases p with
  | obj a =>
    have ha := readGroup_lt hp
    simpa [readGroup, newGroup, List.getElem?_append_left ha] using hp
  | elem arr i => simpa [readGroup, newGroup] using hp

theorem groupDeepCopy_eq (F : Framework D) {h : Heap D} {p : GroupPtr}
    {v : VmGroup D} (hp : readGroup h p = some v) :
    VmGroup.DeepCopy F h (some p)
      = some (some (.obj h.groups.length),
          { h with
            groups := h.groups ++
              [{ v with ObjectMeta :=
                  (F.objectMetaDeepCopyInto v.ObjectMeta v.ObjectMeta h.cells).1 }]
            cells := (F.objectMetaDeepCopyInto v.ObjectMeta v.ObjectMeta h.cells).2 }) := by
  have hnew : readGroup (newGroup h).2 (newGroup h).1 = some (zeroGroup D) := by
    simp [readGroup, newGroup]
  simp only [VmGroup.DeepCopy, groupDeepCopyInto_eq F (readGroup_newGroup hp) hnew,
    Option.map_some']
  simp [newGroup, putGroup]

theorem set_of_getElem? {α : Type} {l : List α} {i : Nat} {x : α}
    (hx : l[i]? = some x) : l.set i x = l := by
  apply List.ext_getElem?
  intro j
  by_cases hij : i = j
  · subst hij
    rw [List.getElem?_set_self', hx]
    simp
  · rw [List.getElem?_set_ne hij]

theorem take_succ_set {α : Type} (l : List α) {i : Nat} (hi : i < l.length) (x : α) :
    (l.set i x).take (i + 1) = l.take i ++ [x] := by
  induction l generalizing i with
  | nil => simp at hi
  | cons y l ih =>
    cases i with
    | zero => simp
    | succ i => simpa using ih (by simpa using hi)

theorem take_succ_drop {α : Type} (l : List α) {j : Nat} (hj : j < l.length) (k : Nat) :
    (l.drop j).take (k + 1) = l[j] :: (l.drop (j + 1)).take k := by
  rw [List.drop_eq_getElem_cons hj]
  rfl

theorem copyItems_eq (F : Framework D) {a b oa : Addr} {s : Slice}
    (La Lb : VmGroupList D) (xs : List (VmGroup D)) (hne : s.arr ≠ oa)
    (hLa : La.Items = some s) (hLb : Lb.Items = some ⟨oa, 0, s.len⟩)
    (hxs : s.off + s.len ≤ xs.length) :
    ∀ (k i : Nat) (g : Heap D) (ys : List (VmGroup D)), i + k = s.len →
      g.lists[a]? = some La → g.lists[b]? = some Lb →
      g.arrays[s.arr]? = some xs → g.arrays[oa]? = some ys → ys.length = s.len →
      VmGroupList.copyItems F a b k i g
        = some { g with
            arrays := g.arrays.set oa
              (ys.take i ++ (cloneItems F g.cells ((xs.drop (s.off + i)).take k)).1)
            cells := (cloneItems F g.cells ((xs.drop (s.off + i)).take k)).2 } := by
  intro k
  induction k with
  | zero =>
    intro i g ys hik _ _ _ hys hlen
    have hi : i = ys.length := by omega
    subst hi
    simp [VmGroupList.copyItems, cloneItems, set_of_getElem? hys]
  | succ k ih =>
    intro i g ys hik ha hb hx hys hlen
    have hi : i < s.len := by omega
    have hj : s.off + i < xs.length := by omega
    have hiy : i < ys.length := by omega
    have hsrc : itemPtr g a i = some (.elem s.arr (s.off + i)) := by
      simp [itemPtr, readList, ha, hLa, hi]
    have hdst : itemPtr g b i = some (.elem oa i) := by
      simp [itemPtr, readList, hb, hLb, hi]
    have hrs : readGroup g (.elem s.arr (s.off + i)) = some xs[s.off + i] := by
      simp [readGroup, hx, List.getElem?_eq_getElem hj]
    have hrd : readGroup g (.elem oa i) = some ys[i] := by
      simp [readGroup, hys, List.getElem?_eq_getElem hiy]
    have hoa : oa < g.arrays.length := by
      by_contra hc
      simp [List.getElem?_eq_none (Nat.le_of_not_lt hc)] at hys
    simp only [VmGroupList.copyItems, Option.bind_eq_bind, hsrc, hdst, Option.some_bind,
      groupDeepCopyInto_eq F hrs hrd]
    rw [ih (i + 1) _
      (ys.set i { xs[s.off + i] with ObjectMeta :=
        (F.objectMetaDeepCopyInto xs[s.off + i].ObjectMeta xs[s.off + i].ObjectMeta
          g.cells).1 }) (by omega)
      (by simpa [putGroup] using ha) (by simpa [putGroup] using hb)
      (by simpa [putGroup, List.getElem?_set_ne (Ne.symm hne)] using hx)
      (by simp [putGroup, hys, hoa])
      (by simpa using hlen)]
    simp [putGroup, hys, take_succ_set ys hiy, take_succ_drop xs hj, cloneItems,
      Nat.add_assoc]

theorem readItems_some {h : Heap D} {s : Slice} {xs : List (VmGroup D)}
    (hxs : readItems h s = some xs) :
    ∃ arr, h.arrays[s.arr]? = some arr ∧ s.off + s.len ≤ arr.length ∧
      xs = (arr.drop s.off).take s.len := by
  unfold readItems at hxs
  cases harr : h.arrays[s.arr]? with
  | none => simp [harr] at hxs
  | some arr =>
    simp only [harr, Option.some_bind] at hxs
    by_cases hle : s.off + s.len ≤ arr.length
    · simp only [hle, if_true, Option.some.injEq] at hxs
      exact ⟨arr, rfl, hle, hxs.symm⟩
    · simp [hle] at hxs

theorem listDeepCopy_nil_items (F : Framework D) {h : Heap D} {a : Addr}
    {L : VmGroupList D} (hL : readList h a = some L) (hI : L.Items = none) :
    VmGroupList.DeepCopy F h (some a)
      = some (some h.lists.length,
          { h with
            lists := h.lists ++
              [⟨L.TypeMeta, (F.listMetaDeepCopyInto L.ListMeta L.ListMeta h.cells).1, none⟩]
            cells := (F.listMetaDeepCopyInto L.ListMeta L.ListMeta h.cells).2 }) := by
  obtain ⟨tm, lm, it⟩ := L
  simp only at hI
  subst hI
  have ha : a < h.lists.length := by
    by_contra hc
    simp [readList, List.getElem?_eq_none (Nat.le_of_not_lt hc)] at hL
  have hne : ¬ (h.lists.length = a) := Nat.ne_of_gt ha
  simp only [readList] at hL
  simp [VmGroupList.DeepCopy, VmGroupList.DeepCopyInto, newList, readList, writeList,
    modifyList, List.getElem?_append_left ha, hL, List.getElem?_set_ne hne]

theorem listDeepCopy_items (F : Framework D) {h : Heap D} {a : Addr}
    {L : VmGroupList D} {s : Slice} {xs : List (VmGroup D)}
    (hL : readList h a = some L) (hI : L.Items = some s)
    (hxs : readItems h s = some xs) :
    VmGroupList.DeepCopy F h (some a)
      = some (some h.lists.length,
          { h with
            lists := h.lists ++
              [⟨L.TypeMeta, (F.listMetaDeepCopyInto L.ListMeta L.ListMeta h.cells).1,
                some ⟨h.arrays.length, 0, s.len⟩⟩]
            arrays := h.arrays ++
              [(cloneItems F (F.listMetaDeepCopyInto L.ListMeta L.ListMeta h.cells).2 xs).1]
            cells :=
              (cloneItems F (F.listMetaDeepCopyInto L.ListMeta L.ListMeta h.cells).2 xs).2 }) := by
  obtain ⟨tm, lm, it⟩ := L
  simp only at hI
  subst hI
  obtain ⟨arr, harr, hle, rfl⟩ := readItems_some hxs
  have ha : a < h.lists.length := by
    by_contra hc
    simp [readList, List.getElem?_eq_none (Nat.le_of_not_lt hc)] at hL
  have hne : ¬ (h.lists.length = a) := Nat.ne_of_gt ha
  have hsa : s.arr < h.arrays.length := by
    by_contra hc
    simp [List.getElem?_eq_none (Nat.le_of_not_lt hc)] at harr
  have hsne : s.arr ≠ h.arrays.length := Nat.ne_of_lt hsa
  simp only [readList] at hL
  simp only [VmGroupList.DeepCopy, VmGroupList.DeepCopyInto, newList, readList, writeList,
    modifyList, makeItems, Option.bind_eq_bind, List.getElem?_append_left ha, hL,
    Option.some_bind, List.length_append, List.length_singleton, Nat.lt_succ_self, if_true,
    List.length_set, List.getElem?_set_ne hne, List.getElem?_set_self, pure]
  rw [copyItems_eq F ⟨tm, lm, some s⟩
    ⟨tm, (F.listMetaDeepCopyInto lm lm h.cells).1, some ⟨h.arrays.length, 0, s.len⟩⟩
    arr hsne rfl rfl hle s.len 0 _ (List.replicate s.len (zeroGroup D))
    (by simp)
    (by simp [List.getElem?_set_ne hne, List.getElem?_append_left ha, hL])
    (by simp)
    (by simp [List.getElem?_append_left hsa, harr])
    (by simp)
    (by simp)]
  simp

theorem specDeepCopy_eq {h : Heap D} {p : SpecPtr} {v : VmGroupSpec D}
    (hp : readSpec h p = some v) :
    VmGroupSpec.DeepCopy h (some p)
      = some (some (.obj h.specs.length), { h with specs := h.specs ++ [v] }) := by
  have hr : readSpec (newSpec h).2 p = some v := by
    cases p with
    | obj a =>
      have ha : a < h.specs.length := by
        by_contra hc
        simp [readSpec, List.getElem?_eq_none (Nat.le_of_not_lt hc)] at hp
      simpa [readSpec, newSpec, List.getElem?_append_left ha] using hp
    | ofGroup g => cases g <;> simpa [readSpec, newSpec, readGroup] using hp
  simp only [VmGroupSpec.DeepCopy, VmGroupSpec.DeepCopyInto, hr, Option.some_bind]
  simp [newSpec, writeSpec]

theorem statusDeepCopy_eq {h : Heap D} {p : StatusPtr} {v : VmGroupStatus D}
    (hp : readStatus h p = some v) :
    VmGroupStatus.DeepCopy h (some p)
      = some (some (.obj h.statuses.length), { h with statuses := h.statuses ++ [v] }) := by
  obtain ⟨op, fs⟩ := v
  have hr : ∀ w, readStatus
      ({ h with statuses := h.statuses ++ [w] } : Heap D) p = some ⟨op, fs⟩ := by
    intro w
    cases p with
    | obj a =>
      have ha : a < h.statuses.length := by
        by_contra hc
        simp [readStatus, List.getElem?_eq_none (Nat.le_of_not_lt hc)] at hp
      simpa [readStatus, List.getElem?_append_left ha] using hp
    | ofGroup g => cases g <;> simpa [readStatus, readGroup] using hp
  simp only [VmGroupStatus.DeepCopy, VmGroupStatus.DeepCopyInto, newStatus, hr,
    Option.bind_eq_bind, Option.some_bind]
  have hw : ∀ w, writeStatus
      ({ h with statuses := h.statuses ++ [w] } : Heap D) (.obj h.statuses.length) ⟨op, fs⟩
      = some { h with statuses := h.statuses ++ [⟨op, fs⟩] } := by
    intro w
    simp [writeStatus]
  have hm : ∀ w, readStatus
      ({ h with statuses := h.statuses ++ [w] } : Heap D) (.obj h.statuses.length)
      = some w := by
    intro w
    simp [readStatus]
  simp only [hw, Option.some_bind, hr, modifyStatus, hm, Option.map_some']

theorem operatorDeepCopy_eq {h : Heap D} {p : OperatorPtr}
    {v : VmOperatorStatus D} (hp : readOperator h p = some v) :
    VmOperatorStatus.DeepCopy h (some p)
      = some (some (.obj h.operators.length),
          { h with operators := h.operators ++ [v] }) := by
  have hr : readOperator (newOperator h).2 p = some v := by
    cases p with
    | obj a =>
      have ha : a < h.operators.length := by
        by_contra hc
        simp [readOperator, List.getElem?_eq_none (Nat.le_of_not_lt hc)] at hp
      simpa [readOperator, newOperator, List.getElem?_append_left ha] using hp
    | ofStatus q =>
      cases q with
      | obj a => simpa [readOperator, newOperator, readStatus] using hp
      | ofGroup g => cases g <;> simpa [readOperator, newOperator, readStatus, readGroup] using hp
  simp only [VmOperatorStatus.DeepCopy, VmOperatorStatus.DeepCopyInto, hr, Option.some_bind]
  simp [newOperator, writeOperator]

/-! ## The copying framework clone meets the hypotheses -/

theorem deref_copy (cs : List D.Cell) (refs : List Addr) (hr : Allocated cs refs) :
    deref (cs ++ refs.map (fun r => (cs[r]?).getD D.zeroCell))
        (List.range' cs.length refs.length)
      = deref cs refs := by
  apply List.ext_getElem
  · simp [deref]
  · intro i h1 h2
    have hi : i < refs.length := by simpa [deref] using h2
    have hlt : refs[i] < cs.length := hr _ (List.getElem_mem hi)
    simp only [deref, List.getElem_map, List.getElem_range'_1, Nat.one_mul]
    rw [List.getElem?_append_right (Nat.le_add_right _ _)]
    simp [hi, List.getElem?_eq_getElem hlt]

theorem Framework.copying_valuePreserving (D : Decls) :
    (Framework.copying D).ValuePreserving where
  object_value := by
    intro m o cs hm
    simp [Framework.copying, ObjectMeta.value, deref_copy cs m.refs hm]
  object_keeps := by
    intro m o cs _ a ha
    simp [Framework.copying, List.getElem?_append_left ha]
  list_value := by
    intro m o cs hm
    simp [Framework.copying, ListMeta.value, deref_copy cs m.refs hm]
  list_keeps := by
    intro m o cs _ a ha
    simp [Framework.copying, List.getElem?_append_left ha]

theorem Framework.copying_noSharing (D : Decls) : (Framework.copying D).NoSharing where
  object_disjoint := by
    intro m o cs hm r hr hmem
    simp only [Framework.copying, List.mem_range'_1] at hr
    exact Nat.lt_irrefl _ (Nat.lt_of_lt_of_le (hm r hmem) hr.1)
  list_disjoint := by
    intro m o cs hm r hr hmem
    simp only [Framework.copying, List.mem_range'_1] at hr
    exact Nat.lt_irrefl _ (Nat.lt_of_lt_of_le (hm r hmem) hr.1)

end CloneLemmas


/-! ## Values of cloned sequences -/

section ValueLemmas
variable {D : Decls}

theorem deref_congr {cs cs' : List D.Cell} {refs : List Addr}
    (hk : ∀ a : Addr, a < cs.length → cs'[a]? = cs[a]?) (hr : Allocated cs refs) :
    deref cs' refs = deref cs refs := by
  unfold deref
  apply List.map_congr_left
  intro r hmem
  exact hk r (hr r hmem)

theorem length_le_of_keeps {cs cs' : List D.Cell}
    (hk : ∀ a : Addr, a < cs.length → cs'[a]? = cs[a]?) : cs.length ≤ cs'.length := by
  by_contra hc
  have hlt : cs'.length < cs.length := Nat.lt_of_not_le hc
  have h1 := hk cs'.length hlt
  rw [List.getElem?_eq_none (Nat.le_refl _), List.getElem?_eq_getElem hlt] at h1
  cases h1

theorem allocated_mono {cs cs' : List D.Cell} {refs : List Addr}
    (hk : ∀ a : Addr, a < cs.length → cs'[a]? = cs[a]?) (hr : Allocated cs refs) :
    Allocated cs' refs :=
  fun r hmem => Nat.lt_of_lt_of_le (hr r hmem) (length_le_of_keeps hk)

theorem allocated_of_deref_eq {cs cs' : List D.Cell} {refs refs' : List Addr}
    (he : deref cs' refs' = deref cs refs) (hr : Allocated cs refs) :
    Allocated cs' refs' := by
  intro r hmem
  obtain ⟨i, hi, rfl⟩ := List.getElem_of_mem hmem
  have hlen : refs'.length = refs.length := by
    have := congrArg List.length he
    simpa [deref] using this
  have hi2 : i < refs.length := hlen ▸ hi
  have h1 : (deref cs' refs')[i]? = (deref cs refs)[i]? := by rw [he]
  have hlt : refs[i] < cs.length := hr _ (List.getElem_mem hi2)
  simp only [deref, List.getElem?_map, List.getElem?_eq_getElem hi,
    List.getElem?_eq_getElem hi2, Option.map_some', List.getElem?_eq_getElem hlt] at h1
  by_contra hc
  rw [List.getElem?_eq_none (Nat.le_of_not_lt hc)] at h1
  cases h1

theorem cloneItems_length (F : Framework D) (cs : List D.Cell) (xs : List (VmGroup D)) :
    (cloneItems F cs xs).1.length = xs.length := by
  induction xs generalizing cs with
  | nil => rfl
  | cons x xs ih => simp [cloneItems, ih]

theorem cloneItems_getElem (F : Framework D) (cs : List D.Cell) (xs : List (VmGroup D))
    (i : Nat) (hi : i < xs.length) :
    ∃ ci, (cloneItems F cs xs).1[i]?
      = some { xs[i] with ObjectMeta :=
          (F.objectMetaDeepCopyInto xs[i].ObjectMeta xs[i].ObjectMeta ci).1 } := by
  induction xs generalizing cs i with
  | nil => simp at hi
  | cons x xs ih =>
    cases i with
    | zero => exact ⟨cs, by simp [cloneItems]⟩
    | succ i =>
      obtain ⟨ci, hci⟩ := ih
        (F.objectMetaDeepCopyInto x.ObjectMeta x.ObjectMeta cs).2 i (by simpa using hi)
      exact ⟨ci, by simpa [cloneItems] using hci⟩

theorem cloneItems_value (F : Framework D) (hF : F.ValuePreserving)
    (cs : List D.Cell) (xs : List (VmGroup D))
    (hx : ∀ x ∈ xs, Allocated cs x.ObjectMeta.refs) :
    (cloneItems F cs xs).1.map (VmGroup.value (cloneItems F cs xs).2)
        = xs.map (VmGroup.value cs) ∧
      (∀ a : Addr, a < cs.length → (cloneItems F cs xs).2[a]? = cs[a]?) ∧
      (∀ y ∈ (cloneItems F cs xs).1,
        Allocated (cloneItems F cs xs).2 y.ObjectMeta.refs) := by
  induction xs generalizing cs with
  | nil => simp [cloneItems]
  | cons x xs ih =>
    have hxa : Allocated cs x.ObjectMeta.refs := hx x (List.mem_cons_self _ _)
    have hval := hF.object_value x.ObjectMeta x.ObjectMeta cs hxa
    have hkeep := hF.object_keeps x.ObjectMeta x.ObjectMeta cs hxa
    have hrest : ∀ y ∈ xs, Allocated
        (F.objectMetaDeepCopyInto x.ObjectMeta x.ObjectMeta cs).2 y.ObjectMeta.refs :=
      fun y hy => allocated_mono hkeep (hx y (List.mem_cons_of_mem _ hy))
    obtain ⟨ih1, ih2, ih3⟩ := ih _ hrest
    have hnew : Allocated (F.objectMetaDeepCopyInto x.ObjectMeta x.ObjectMeta cs).2
        (F.objectMetaDeepCopyInto x.ObjectMeta x.ObjectMeta cs).1.refs :=
      allocated_of_deref_eq (congrArg Prod.snd hval) hxa
    refine ⟨?_, ?_, ?_⟩
    · simp only [cloneItems, List.map_cons, ih1]
      congr 1
      · simp only [VmGroup.value, ObjectMeta.value, GroupValue.mk.injEq, Prod.mk.injEq,
          true_and, and_true]
        refine ⟨congrArg Prod.fst hval, ?_⟩
        rw [deref_congr ih2 hnew]
        exact congrArg Prod.snd hval
      · apply List.map_congr_left
        intro y hy
        simp only [VmGroup.value, ObjectMeta.value, GroupValue.mk.injEq, Prod.mk.injEq,
          true_and, and_true]
        exact deref_congr hkeep (hx y (List.mem_cons_of_mem _ hy))
    · intro a ha
      simp only [cloneItems]
      rw [ih2 a (Nat.lt_of_lt_of_le ha (length_le_of_keeps hkeep)), hkeep a ha]
    · intro y hy
      simp only [cloneItems, List.mem_cons] at hy
      rcases hy with rfl | hy
      · exact allocated_mono ih2 hnew
      · exact ih3 y hy

theorem readItems_length {h : Heap D} {s : Slice} {xs : List (VmGroup D)}
    (hxs : readItems h s = some xs) : xs.length = s.len := by
  obtain ⟨arr, _, hle, rfl⟩ := readItems_some hxs
  simp only [List.length_take, List.length_drop]
  omega

theorem readItems_getElem? {h : Heap D} {s : Slice} {xs : List (VmGroup D)}
    (hxs : readItems h s = some xs) (i : Nat) (hi : i < s.len) :
    readGroup h (.elem s.arr (s.off + i)) = xs[i]? := by
  obtain ⟨arr, harr, hle, rfl⟩ := readItems_some hxs
  simp [readGroup, harr, List.getElem?_take, hi]

theorem readItems_fresh (h : Heap D) (ys : List (VmGroup D)) (ls : List (VmGroupList D))
    (cs : List D.Cell) :
    readItems ({ h with lists := ls, arrays := h.arrays ++ [ys], cells := cs } : Heap D)
      ⟨h.arrays.length, 0, ys.length⟩ = some ys := by
  simp [readItems]

theorem readItems_clone (F : Framework D) (h : Heap D) (L : VmGroupList D) (s : Slice)
    (xs : List (VmGroup D)) (hlen : xs.length = s.len) :
    readItems
      ({ h with
          lists := h.lists ++
            [⟨L.TypeMeta, (F.listMetaDeepCopyInto L.ListMeta L.ListMeta h.cells).1,
              some ⟨h.arrays.length, 0, s.len⟩⟩]
          arrays := h.arrays ++
            [(cloneItems F (F.listMetaDeepCopyInto L.ListMeta L.ListMeta h.cells).2 xs).1]
          cells :=
            (cloneItems F (F.listMetaDeepCopyInto L.ListMeta L.ListMeta h.cells).2 xs).2 }
        : Heap D)
      ⟨h.arrays.length, 0, s.len⟩
      = some (cloneItems F (F.listMetaDeepCopyInto L.ListMeta L.ListMeta h.cells).2 xs).1 := by
  have := readItems_fresh h
    (cloneItems F (F.listMetaDeepCopyInto L.ListMeta L.ListMeta h.cells).2 xs).1
    (h.lists ++
      [⟨L.TypeMeta, (F.listMetaDeepCopyInto L.ListMeta L.ListMeta h.cells).1,
        some ⟨h.arrays.length, 0, s.len⟩⟩])
    (cloneItems F (F.listMetaDeepCopyInto L.ListMeta L.ListMeta h.cells).2 xs).2
  rw [cloneItems_length, hlen] at this
  exact this

theorem readGroup_congr {h1 h2 : Heap D} (hg : h1.groups = h2.groups)
    (ha : h1.arrays = h2.arrays) (p : GroupPtr) : readGroup h1 p = readGroup h2 p := by
  cases p <;> simp [readGroup, hg, ha]

theorem groupValue_writeCell {h : Heap D} {p : GroupPtr} {v : VmGroup D}
    (hp : readGroup h p = some v) (r : Addr) (x : D.Cell)
    (hr : r ∉ v.ObjectMeta.refs) :
    groupValue (writeCell h r x) p = groupValue h p := by
  have h1 : readGroup (writeCell h r x) p = some v :=
    (readGroup_congr rfl rfl p).trans hp
  rw [groupValue, groupValue, h1, hp]
  simp only [writeCell, Option.map_some', Option.some.injEq, VmGroup.value,
    ObjectMeta.value, GroupValue.mk.injEq, Prod.mk.injEq, true_and, and_true, deref]
  apply List.map_congr_left
  intro a ha
  have hne : r ≠ a := by
    intro e
    subst e
    exact hr ha
  exact List.getElem?_set_ne hne

theorem writeGroup_frame {h : Heap D} {p : GroupPtr} {o : VmGroup D}
    (hp : readGroup h p = some o) (u : VmGroup D) :
    ∃ g, writeGroup h p u = some g ∧ g.cells = h.cells ∧ g.lists = h.lists ∧
      ∀ q, q ≠ p → readGroup g q = readGroup h q :=
  ⟨_, writeGroup_eq_put hp u, putGroup_cells_get h p u, by cases p <;> rfl,
    fun _ hq => readGroup_put_other h hq u⟩

theorem listDeepCopy_shape (F : Framework D) {h : Heap D} {a : Addr}
    {L : VmGroupList D} {s : Slice} {xs : List (VmGroup D)}
    (hL : readList h a = some L) (hI : L.Items = some s)
    (hxs : readItems h s = some xs) :
    ∃ h' L' ys, VmGroupList.DeepCopy F h (some a) = some (some h.lists.length, h') ∧
      h'.groups = h.groups ∧ h'.lists = h.lists ++ [L'] ∧
      h'.arrays = h.arrays ++ [ys] ∧ ys.length = s.len ∧
      L'.Items = some ⟨h.arrays.length, 0, s.len⟩ ∧
      readList h' a = some L ∧ readItems h' s = some xs := by
  obtain ⟨arr, harr, hle, hx⟩ := readItems_some hxs
  have hsa : s.arr < h.arrays.length := by
    by_contra hc
    simp [List.getElem?_eq_none (Nat.le_of_not_lt hc)] at harr
  have ha : a < h.lists.length := by
    by_contra hc
    simp [readList, List.getElem?_eq_none (Nat.le_of_not_lt hc)] at hL
  refine ⟨_,
    ⟨L.TypeMeta, (F.listMetaDeepCopyInto L.ListMeta L.ListMeta h.cells).1,
      some ⟨h.arrays.length, 0, s.len⟩⟩, _,
    listDeepCopy_items F hL hI hxs, rfl, rfl, rfl, ?_, rfl, ?_, ?_⟩
  · rw [cloneItems_length, readItems_length hxs]
  · simpa [readList, List.getElem?_append_left ha] using hL
  · simp [readItems, List.getElem?_append_left hsa, harr, hle, hx]

theorem elem_ne_of_arr_ne {a b : Addr} (hab : a ≠ b) (i j : Nat) :
    GroupPtr.elem a i ≠ GroupPtr.elem b j := by
  intro he
  cases he
  exact hab rfl

theorem readGroup_last {h : Heap D} {ys : List (VmGroup D)} {front : List (List (VmGroup D))}
    (ha : h.arrays = front ++ [ys]) (i : Nat) :
    readGroup h (.elem front.length i) = ys[i]? := by
  simp [readGroup, ha]

theorem readGroup_front {h g : Heap D} {ys : List (VmGroup D)}
    (ha : h.arrays = g.arrays ++ [ys]) {b : Addr} (hb : b < g.arrays.length) (i : Nat) :
    readGroup h (.elem b i) = readGroup g (.elem b i) := by
  simp [readGroup, ha, List.getElem?_append_left hb]

theorem groupDeepCopy_value (F : Framework D) (hF : F.ValuePreserving) {h : Heap D}
    {p : GroupPtr} {v : VmGroup D} (hp : readGroup h p = some v)
    (hv : Allocated h.cells v.ObjectMeta.refs) :
    ∃ c h' w, VmGroup.DeepCopy F h (some p) = some (some c, h') ∧
      readGroup h' c = some w ∧ Allocated h'.cells w.ObjectMeta.refs ∧
      groupValue h' c = groupValue h p := by
  have hval := hF.object_value v.ObjectMeta v.ObjectMeta h.cells hv
  refine ⟨_, _,
    { v with ObjectMeta := (F.objectMetaDeepCopyInto v.ObjectMeta v.ObjectMeta h.cells).1 },
    groupDeepCopy_eq F hp, ?_, ?_, ?_⟩
  · simp [readGroup]
  · exact allocated_of_deref_eq (congrArg Prod.snd hval) hv
  · rw [groupValue, groupValue, hp]
    simp [readGroup, VmGroup.value, hval]

theorem listDeepCopy_value (F : Framework D) (hF : F.ValuePreserving) {h : Heap D}
    {a : Addr} (ha : AllocatedList h a) :
    ∃ c h', VmGroupList.DeepCopy F h (some a) = some (some c, h') ∧
      AllocatedList h' c ∧ listValue h' c = listValue h a := by
  obtain ⟨L, hL, hLM, hIt⟩ := ha
  have hval := hF.list_value L.ListMeta L.ListMeta h.cells hLM
  have hkeep := hF.list_keeps L.ListMeta L.ListMeta h.cells hLM
  have hnew : Allocated (F.listMetaDeepCopyInto L.ListMeta L.ListMeta h.cells).2
      (F.listMetaDeepCopyInto L.ListMeta L.ListMeta h.cells).1.refs :=
    allocated_of_deref_eq (congrArg Prod.snd hval) hLM
  cases hi : L.Items with
  | none =>
    refine ⟨_, _, listDeepCopy_nil_items F hL hi, ?_, ?_⟩
    · refine ⟨⟨L.TypeMeta, (F.listMetaDeepCopyInto L.ListMeta L.ListMeta h.cells).1, none⟩,
        by simp [readList], hnew, ?_⟩
      intro s hs
      cases hs
    · rw [listValue, listValue, hL]
      simp [readList, hi, hval]
  | some s =>
    obtain ⟨xs, hxs, hX⟩ := hIt s hi
    obtain ⟨hv, hk, hy⟩ := cloneItems_value F hF
      (F.listMetaDeepCopyInto L.ListMeta L.ListMeta h.cells).2 xs
      (fun x hx => allocated_mono hkeep (hX x hx))
    have hitems := readItems_clone F h L s xs (readItems_length hxs)
    have hmeta : (F.listMetaDeepCopyInto L.ListMeta L.ListMeta h.cells).1.value
        (cloneItems F (F.listMetaDeepCopyInto L.ListMeta L.ListMeta h.cells).2 xs).2
        = L.ListMeta.value h.cells := by
      rw [← hval]
      simp only [ListMeta.value, Prod.mk.injEq, true_and]
      exact deref_congr hk hnew
    have hsrcv : xs.map (VmGroup.value
        (F.listMetaDeepCopyInto L.ListMeta L.ListMeta h.cells).2)
        = xs.map (VmGroup.value h.cells) := by
      apply List.map_congr_left
      intro x hx
      simp only [VmGroup.value, ObjectMeta.value, GroupValue.mk.injEq, Prod.mk.injEq,
        true_and, and_true]
      exact deref_congr hkeep (hX x hx)
    refine ⟨_, _, listDeepCopy_items F hL hi hxs, ?_, ?_⟩
    · refine ⟨⟨L.TypeMeta, (F.listMetaDeepCopyInto L.ListMeta L.ListMeta h.cells).1,
          some ⟨h.arrays.length, 0, s.len⟩⟩,
        by simp [readList], allocated_mono hk hnew, ?_⟩
      intro t ht
      cases ht
      exact ⟨_, hitems, hy⟩
    · rw [listValue, listValue, hL]
      simp only [readList, List.getElem?_concat_length, Option.some_bind, hitems, hi, hxs,
        Option.map_some', hmeta, hv, hsrcv]

theorem listValue_isSome {h : Heap D} {a : Addr} (ha : AllocatedList h a) :
    (listValue h a).isSome := by
  obtain ⟨L, hL, _, hIt⟩ := ha
  rw [listValue, hL]
  cases hi : L.Items with
  | none => simp [hi]
  | some s =>
    obtain ⟨xs, hxs, _⟩ := hIt s hi
    simp [hi, hxs]

end ValueLemmas

/-! ## The claims -/

section Claims
variable {D : Decls}

/-- C1: for a non-nil `VmGroup` `v`, `DeepCopy` returns a non-nil `VmGroup`
whose `TypeMeta`, `Spec` and `Status` equal those of `v` and whose
`ObjectMeta` is the framework's deep copy of `v.ObjectMeta`; so, when the
framework's clone is value-preserving and the references of `v` are
allocated, the clone has the value of `v` on every field. -/
theorem VmGroup.DeepCopy_value_eq (F : Framework D) (h : Heap D) (p : GroupPtr)
    (v : VmGroup D) (hp : readGroup h p = some v) :
    ∃ c h' w, VmGroup.DeepCopy F h (some p) = some (some c, h') ∧
      readGroup h' c = some w ∧
      w.TypeMeta = v.TypeMeta ∧ w.Spec = v.Spec ∧ w.Status = v.Status ∧
      (w.ObjectMeta, h'.cells)
        = F.objectMetaDeepCopyInto v.ObjectMeta v.ObjectMeta h.cells ∧
      (F.ValuePreserving → Allocated h.cells v.ObjectMeta.refs →
        groupValue h' c = groupValue h p) := by
  refine ⟨_, _,
    { v with ObjectMeta := (F.objectMetaDeepCopyInto v.ObjectMeta v.ObjectMeta h.cells).1 },
    groupDeepCopy_eq F hp, ?_, rfl, rfl, rfl, rfl, ?_⟩
  · simp [readGroup]
  · intro hF hv
    rw [groupValue, groupValue, hp]
    simp [readGroup, VmGroup.value, hF.object_value _ _ _ hv]

/-- C1 at the object of the demo heap, with the copying framework clone:
the clone exists and has the value of the source. -/
theorem VmGroup.DeepCopy_value_eq_witness :
    readGroup demoHeap (.obj 0) = some demoGroup ∧
    ∃ c h', VmGroup.DeepCopy (Framework.copying natDecls) demoHeap (some (.obj 0))
        = some (some c, h') ∧
      groupValue h' c = groupValue demoHeap (.obj 0) :=
  ⟨rfl, by
    obtain ⟨c, h', _, h1, _, _, _, _, _, h7⟩ :=
      VmGroup.DeepCopy_value_eq (Framework.copying natDecls) demoHeap (.obj 0)
        demoGroup rfl
    exact ⟨c, h', h1, h7 (Framework.copying_valuePreserving natDecls) (by decide)⟩⟩

/-- C2: for each of the five types, `DeepCopy` of a nil receiver returns nil
without failing and leaves the heap as it is (nothing is allocated),
`DeepCopy` of a valid non-nil receiver returns a non-nil pointer, and
whenever `DeepCopy` returns, its result is nil exactly when the receiver is
nil. -/
theorem DeepCopy_nil_iff (F : Framework D) (h : Heap D) :
    (VmGroup.DeepCopy F h none = some (none, h) ∧
      (∀ p, (readGroup h p).isSome →
        ∃ c h', VmGroup.DeepCopy F h (some p) = some (some c, h')) ∧
      (∀ p r, VmGroup.DeepCopy F h p = some r → (r.1 = none ↔ p = none))) ∧
    (VmGroupList.DeepCopy F h none = some (none, h) ∧
      (∀ a, ValidList h a →
        ∃ c h', VmGroupList.DeepCopy F h (some a) = some (some c, h')) ∧
      (∀ p r, VmGroupList.DeepCopy F h p = some r → (r.1 = none ↔ p = none))) ∧
    (VmGroupSpec.DeepCopy h none = some (none, h) ∧
      (∀ p, (readSpec h p).isSome →
        ∃ c h', VmGroupSpec.DeepCopy h (some p) = some (some c, h')) ∧
      (∀ p r, VmGroupSpec.DeepCopy h p = some r → (r.1 = none ↔ p = none))) ∧
    (VmGroupStatus.DeepCopy h none = some (none, h) ∧
      (∀ p, (readStatus h p).isSome →
        ∃ c h', VmGroupStatus.DeepCopy h (some p) = some (some c, h')) ∧
      (∀ p r, VmGroupStatus.DeepCopy h p = some r → (r.1 = none ↔ p = none))) ∧
    (VmOperatorStatus.DeepCopy h none = some (none, h) ∧
      (∀ p, (readOperator h p).isSome →
        ∃ c h', VmOperatorStatus.DeepCopy h (some p) = some (some c, h')) ∧
      (∀ p r, VmOperatorStatus.DeepCopy h p = some r → (r.1 = none ↔ p = none))) := by
  refine ⟨⟨rfl, ?_, ?_⟩, ⟨rfl, ?_, ?_⟩, ⟨rfl, ?_, ?_⟩, ⟨rfl, ?_, ?_⟩, ⟨rfl, ?_, ?_⟩⟩
  · intro p hp
    obtain ⟨v, hv⟩ := Option.isSome_iff_exists.mp hp
    exact ⟨_, _, groupDeepCopy_eq F hv⟩
  · intro p r hr
    cases p with
    | none =>
      simp only [VmGroup.DeepCopy, Option.some.injEq] at hr
      simp [← hr]
    | some q =>
      simp only [VmGroup.DeepCopy, Option.map_eq_some'] at hr
      obtain ⟨_, _, hr⟩ := hr
      simp [← hr]
  · intro a ⟨L, hL, hI⟩
    cases hi : L.Items with
    | none => exact ⟨_, _, listDeepCopy_nil_items F hL hi⟩
    | some s =>
      obtain ⟨xs, hxs⟩ := Option.isSome_iff_exists.mp (hI s hi)
      exact ⟨_, _, listDeepCopy_items F hL hi hxs⟩
  · intro p r hr
    cases p with
    | none =>
      simp only [VmGroupList.DeepCopy, Option.some.injEq] at hr
      simp [← hr]
    | some q =>
      simp only [VmGroupList.DeepCopy, Option.map_eq_some'] at hr
      obtain ⟨_, _, hr⟩ := hr
      simp [← hr]
  · intro p hp
    obtain ⟨v, hv⟩ := Option.isSome_iff_exists.mp hp
    exact ⟨_, _, specDeepCopy_eq hv⟩
  · intro p r hr
    cases p with
    | none =>
      simp only [VmGroupSpec.DeepCopy, Option.some.injEq] at hr
      simp [← hr]
    | some q =>
      simp only [VmGroupSpec.DeepCopy, Option.map_eq_some'] at hr
      obtain ⟨_, _, hr⟩ := hr
      simp [← hr]
  · intro p hp
    obtain ⟨v, hv⟩ := Option.isSome_iff_exists.mp hp
    exact ⟨_, _, statusDeepCopy_eq hv⟩
  · intro p r hr
    cases p with
    | none =>
      simp only [VmGroupStatus.DeepCopy, Option.some.injEq] at hr
      simp [← hr]
    | some q =>
      simp only [VmGroupStatus.DeepCopy, Option.map_eq_some'] at hr
      obtain ⟨_, _, hr⟩ := hr
      simp [← hr]
  · intro p hp
    obtain ⟨v, hv⟩ := Option.isSome_iff_exists.mp hp
    exact ⟨_, _, operatorDeepCopy_eq hv⟩
  · intro p r hr
    cases p with
    | none =>
      simp only [VmOperatorStatus.DeepCopy, Option.some.injEq] at hr
      simp [← hr]
    | some q =>
      simp only [VmOperatorStatus.DeepCopy, Option.map_eq_some'] at hr
      obtain ⟨_, _, hr⟩ := hr
      simp [← hr]

/-- C2 in the demo heap: a valid receiver of each type gives a non-nil
clone. -/
theorem DeepCopy_nil_iff_witness :
    (∃ c h', VmGroup.DeepCopy (Framework.copying natDecls) demoHeap (some (.elem 0 3))
      = some (some c, h')) ∧
    (∃ c h', VmGroupList.DeepCopy (Framework.copying natDecls) demoHeap (some 0)
      = some (some c, h')) ∧
    (∃ c h', VmGroupSpec.DeepCopy demoHeap (some (.obj 0)) = some (some c, h')) ∧
    (∃ c h', VmGroupStatus.DeepCopy demoHeap (some (.ofGroup (.obj 0)))
      = some (some c, h')) ∧
    (∃ c h', VmOperatorStatus.DeepCopy demoHeap (some (.obj 0)) = some (some c, h')) :=
  ⟨(DeepCopy_nil_iff (Framework.copying natDecls) demoHeap).1.2.1 (.elem 0 3) rfl,
   (DeepCopy_nil_iff (Framework.copying natDecls) demoHeap).2.1.2.1 0
     ⟨⟨7, ⟨8, [1]⟩, some ⟨0, 1, 2⟩⟩, rfl, fun s hs => by
       cases hs
       rfl⟩,
   (DeepCopy_nil_iff (Framework.copying natDecls) demoHeap).2.2.1.2.1 (.obj 0) rfl,
   (DeepCopy_nil_iff (Framework.copying natDecls) demoHeap).2.2.2.1.2.1
     (.ofGroup (.obj 0)) rfl,
   (DeepCopy_nil_iff (Framework.copying natDecls) demoHeap).2.2.2.2.2.1 (.obj 0) rfl⟩

/-- C3: for a non-nil `VmGroupList` whose `Items` is a non-nil sequence of
length `n`, the `Items` of `DeepCopy` has length `n`, and for every `i < n`
its element `i` is the struct that `VmGroup.DeepCopy` makes of element `i` of
the source (over the backing stores as they are when the loop reaches `i`):
same `TypeMeta`, `Spec` and `Status`, and, when the framework's clone is
value-preserving and the references of the list are allocated, the same
value. -/
theorem VmGroupList.DeepCopy_items_eq (F : Framework D) (h : Heap D) (a : Addr)
    (L : VmGroupList D) (s : Slice) (xs : List (VmGroup D))
    (hL : readList h a = some L) (hI : L.Items = some s)
    (hxs : readItems h s = some xs) :
    ∃ c h' L' t ys, VmGroupList.DeepCopy F h (some a) = some (some c, h') ∧
      readList h' c = some L' ∧ L'.Items = some t ∧ readItems h' t = some ys ∧
      t.len = s.len ∧ ys.length = xs.length ∧
      (∀ i, i < s.len → ∃ x y,
        readGroup h (.elem s.arr (s.off + i)) = some x ∧ xs[i]? = some x ∧
        readGroup h' (.elem t.arr (t.off + i)) = some y ∧ ys[i]? = some y ∧
        y.TypeMeta = x.TypeMeta ∧ y.Spec = x.Spec ∧ y.Status = x.Status ∧
        ∃ cs q g, VmGroup.DeepCopy F { h with cells := cs }
            (some (.elem s.arr (s.off + i))) = some (some q, g) ∧
          readGroup g q = some y) ∧
      (F.ValuePreserving → Allocated h.cells L.ListMeta.refs →
        (∀ x ∈ xs, Allocated h.cells x.ObjectMeta.refs) →
        ∀ i, i < s.len →
          groupValue h' (.elem t.arr (t.off + i))
            = groupValue h (.elem s.arr (s.off + i))) := by
  have hlen := readItems_length hxs
  have hclen := cloneItems_length F
    (F.listMetaDeepCopyInto L.ListMeta L.ListMeta h.cells).2 xs
  have hitems := readItems_clone F h L s xs hlen
  refine ⟨_, _,
    ⟨L.TypeMeta, (F.listMetaDeepCopyInto L.ListMeta L.ListMeta h.cells).1,
      some ⟨h.arrays.length, 0, s.len⟩⟩,
    ⟨h.arrays.length, 0, s.len⟩, _,
    listDeepCopy_items F hL hI hxs, ?_, rfl, hitems, rfl, hclen, ?_, ?_⟩
  · simp [readList]
  · intro i hi
    have hix : i < xs.length := hlen ▸ hi
    obtain ⟨ci, hci⟩ := cloneItems_getElem F
      (F.listMetaDeepCopyInto L.ListMeta L.ListMeta h.cells).2 xs i hix
    have hsrc : readGroup h (.elem s.arr (s.off + i)) = some xs[i] := by
      rw [readItems_getElem? hxs i hi, List.getElem?_eq_getElem hix]
    have hdst := readItems_getElem? hitems i hi
    have hsrc2 : readGroup ({ h with cells := ci } : Heap D) (.elem s.arr (s.off + i))
        = some xs[i] := by
      rw [readGroup_cells]
      exact hsrc
    refine ⟨xs[i], _, hsrc, List.getElem?_eq_getElem hix, ?_, hci, rfl, rfl, rfl,
      ci, _, _, groupDeepCopy_eq F hsrc2, ?_⟩
    · rw [hdst, hci]
    · simp [readGroup]
  · intro hF hLM hX i hi
    have hix : i < xs.length := hlen ▸ hi
    have hkeep := hF.list_keeps L.ListMeta L.ListMeta h.cells hLM
    obtain ⟨hv, _, _⟩ := cloneItems_value F hF
      (F.listMetaDeepCopyInto L.ListMeta L.ListMeta h.cells).2 xs
      (fun x hx => allocated_mono hkeep (hX x hx))
    have hdst := readItems_getElem? hitems i hi
    have hsrc := readItems_getElem? hxs i hi
    rw [groupValue, groupValue, hdst, hsrc, ← List.getElem?_map, ← List.getElem?_map, hv]
    congr 1
    apply List.map_congr_left
    intro x hx
    simp only [VmGroup.value, ObjectMeta.value, GroupValue.mk.injEq, Prod.mk.injEq,
      true_and, and_true]
    exact deref_congr hkeep (hX x hx)

/-- C3 at the first list of the demo heap, with the copying framework
clone: the clone has two elements, each with the value of the source
element at the same index. -/
theorem VmGroupList.DeepCopy_items_eq_witness :
    readItems demoHeap ⟨0, 1, 2⟩ = some [demoGroup, demoGroup2] ∧
    ∃ c h' L' t ys,
      VmGroupList.DeepCopy (Framework.copying natDecls) demoHeap (some 0)
        = some (some c, h') ∧
      readList h' c = some L' ∧ L'.Items = some t ∧ readItems h' t = some ys ∧
      ys.length = 2 ∧
      ∀ i, i < 2 →
        groupValue h' (.elem t.arr (t.off + i)) = groupValue demoHeap (.elem 0 (1 + i)) :=
  ⟨rfl, by
    obtain ⟨c, h', L', t, ys, h1, h2, h3, h4, _, h6, _, h8⟩ :=
      VmGroupList.DeepCopy_items_eq (Framework.copying natDecls) demoHeap 0
        ⟨7, ⟨8, [1]⟩, some ⟨0, 1, 2⟩⟩ ⟨0, 1, 2⟩ [demoGroup, demoGroup2] rfl rfl rfl
    exact ⟨c, h', L', t, ys, h1, h2, h3, h4, h6,
      h8 (Framework.copying_valuePreserving natDecls) (by decide) (by decide)⟩⟩

/-- C4: `VmGroupList.DeepCopy` keeps nil `Items` nil and keeps non-nil
`Items` of length zero non-nil of length zero (with no elements). -/
theorem VmGroupList.DeepCopy_nil_vs_empty (F : Framework D) (h : Heap D) (a : Addr)
    (L : VmGroupList D) (hL : readList h a = some L) :
    (L.Items = none →
      ∃ c h' L', VmGroupList.DeepCopy F h (some a) = some (some c, h') ∧
        readList h' c = some L' ∧ L'.Items = none) ∧
    (∀ s, L.Items = some s → s.len = 0 → (readItems h s).isSome →
      ∃ c h' L' t, VmGroupList.DeepCopy F h (some a) = some (some c, h') ∧
        readList h' c = some L' ∧ L'.Items = some t ∧ t.len = 0 ∧
        readItems h' t = some []) := by
  constructor
  · intro hI
    refine ⟨_, _,
      ⟨L.TypeMeta, (F.listMetaDeepCopyInto L.ListMeta L.ListMeta h.cells).1, none⟩,
      listDeepCopy_nil_items F hL hI, ?_, rfl⟩
    simp [readList]
  · intro s hI hs hv
    obtain ⟨xs, hxs⟩ := Option.isSome_iff_exists.mp hv
    have hlen := readItems_length hxs
    have hx0 : xs = [] := List.length_eq_zero.mp (by rw [hlen, hs])
    have hitems := readItems_clone F h L s xs hlen
    refine ⟨_, _,
      ⟨L.TypeMeta, (F.listMetaDeepCopyInto L.ListMeta L.ListMeta h.cells).1,
        some ⟨h.arrays.length, 0, s.len⟩⟩,
      ⟨h.arrays.length, 0, s.len⟩,
      listDeepCopy_items F hL hI hxs, ?_, rfl, hs, ?_⟩
    · simp [readList]
    · rw [hitems, hx0]
      rfl

/-- C4 at the second (nil `Items`) and third (empty `Items`) list of the
demo heap. -/
theorem VmGroupList.DeepCopy_nil_vs_empty_witness :
    (∃ c h' L', VmGroupList.DeepCopy (Framework.copying natDecls) demoHeap (some 1)
        = some (some c, h') ∧
      readList h' c = some L' ∧ L'.Items = none) ∧
    (∃ c h' L' t, VmGroupList.DeepCopy (Framework.copying natDecls) demoHeap (some 2)
        = some (some c, h') ∧
      readList h' c = some L' ∧ L'.Items = some t ∧ t.len = 0 ∧
      readItems h' t = some []) :=
  ⟨(VmGroupList.DeepCopy_nil_vs_empty (Framework.copying natDecls) demoHeap 1
      ⟨7, ⟨8, [1]⟩, none⟩ rfl).1 rfl,
   (VmGroupList.DeepCopy_nil_vs_empty (Framework.copying natDecls) demoHeap 2
      ⟨7, ⟨8, []⟩, some ⟨0, 4, 0⟩⟩ rfl).2 ⟨0, 4, 0⟩ rfl rfl rfl⟩

/-- C5: `VmGroup.DeepCopyObject` of a nil receiver returns the nil
`runtime.Object`, not an `Object` of kind `*VmGroup` holding a nil pointer;
for a valid non-nil receiver it returns an `Object` of kind `*VmGroup`
holding the very pointer that `DeepCopy` returns, in the heap that `DeepCopy`
leaves, so every field read through it is that of `DeepCopy`. -/
theorem VmGroup.DeepCopyObject_nil_or_group (F : Framework D) (h : Heap D) :
    VmGroup.DeepCopyObject F h none = some (Object.nil, h) ∧
    VmGroup.DeepCopyObject F h none ≠ some (Object.vmGroup none, h) ∧
    (∀ p, (readGroup h p).isSome →
      ∃ c h', VmGroup.DeepCopy F h (some p) = some (some c, h') ∧
        VmGroup.DeepCopyObject F h (some p) = some (Object.vmGroup (some c), h') ∧
        (readGroup h' c).isSome) := by
  refine ⟨rfl, ?_, ?_⟩
  · simp [VmGroup.DeepCopyObject, VmGroup.DeepCopy]
  · intro p hp
    obtain ⟨v, hv⟩ := Option.isSome_iff_exists.mp hp
    refine ⟨_, _, groupDeepCopy_eq F hv, ?_, ?_⟩
    · simp [VmGroup.DeepCopyObject, groupDeepCopy_eq F hv]
    · simp [readGroup]

/-- C5 at the object of the demo heap. -/
theorem VmGroup.DeepCopyObject_nil_or_group_witness :
    ∃ c h', VmGroup.DeepCopy (Framework.copying natDecls) demoHeap (some (.obj 0))
        = some (some c, h') ∧
      VmGroup.DeepCopyObject (Framework.copying natDecls) demoHeap (some (.obj 0))
        = some (Object.vmGroup (some c), h') ∧
      (readGroup h' c).isSome :=
  (VmGroup.DeepCopyObject_nil_or_group (Framework.copying natDecls) demoHeap).2.2 (.obj 0) rfl

/-- C6: `VmGroupList.DeepCopyObject` of a nil receiver returns the nil
`runtime.Object`; for a valid non-nil receiver it returns an `Object` of
kind `*VmGroupList` holding the pointer that `DeepCopy` returns, in the heap
that `DeepCopy` leaves; whenever it returns, the result is the nil `Object`
exactly when the receiver is nil and is never of kind `*VmGroup`; and the
`Object` that `VmGroup.DeepCopyObject` returns is never of kind
`*VmGroupList`. -/
theorem VmGroupList.DeepCopyObject_nil_or_list (F : Framework D) (h : Heap D) :
    VmGroupList.DeepCopyObject F h none = some (Object.nil, h) ∧
    (∀ a, ValidList h a →
      ∃ c h', VmGroupList.DeepCopy F h (some a) = some (some c, h') ∧
        VmGroupList.DeepCopyObject F h (some a)
          = some (Object.vmGroupList (some c), h') ∧
        (readList h' c).isSome) ∧
    (∀ inp r, VmGroupList.DeepCopyObject F h inp = some r →
      (r.1 = Object.nil ↔ inp = none) ∧ ∀ q, r.1 ≠ Object.vmGroup q) ∧
    (∀ inp r, VmGroup.DeepCopyObject F h inp = some r →
      ∀ q, r.1 ≠ Object.vmGroupList q) := by
  refine ⟨rfl, ?_, ?_, ?_⟩
  · intro a ⟨L, hL, hI⟩
    cases hi : L.Items with
    | none =>
      refine ⟨_, _, listDeepCopy_nil_items F hL hi, ?_, ?_⟩
      · simp [VmGroupList.DeepCopyObject, listDeepCopy_nil_items F hL hi]
      · simp [readList]
    | some s =>
      obtain ⟨xs, hxs⟩ := Option.isSome_iff_exists.mp (hI s hi)
      refine ⟨_, _, listDeepCopy_items F hL hi hxs, ?_, ?_⟩
      · simp [VmGroupList.DeepCopyObject, listDeepCopy_items F hL hi hxs]
      · simp [readList]
  · intro inp r hr
    cases inp with
    | none =>
      simp only [VmGroupList.DeepCopyObject, VmGroupList.DeepCopy, Option.map_some',
        Option.some.injEq] at hr
      simp [← hr]
    | some a =>
      simp only [VmGroupList.DeepCopyObject, VmGroupList.DeepCopy, Option.map_map,
        Option.map_eq_some', Function.comp] at hr
      obtain ⟨_, _, hr⟩ := hr
      simp [← hr]
  · intro inp r hr
    cases inp with
    | none =>
      simp only [VmGroup.DeepCopyObject, VmGroup.DeepCopy, Option.map_some',
        Option.some.injEq] at hr
      simp [← hr]
    | some a =>
      simp only [VmGroup.DeepCopyObject, VmGroup.DeepCopy, Option.map_map,
        Option.map_eq_some', Function.comp] at hr
      obtain ⟨_, _, hr⟩ := hr
      simp [← hr]

/-- C6 at the second list of the demo heap. -/
theorem VmGroupList.DeepCopyObject_nil_or_list_witness :
    ∃ c h', VmGroupList.DeepCopy (Framework.copying natDecls) demoHeap (some 1)
        = some (some c, h') ∧
      VmGroupList.DeepCopyObject (Framework.copying natDecls) demoHeap (some 1)
        = some (Object.vmGroupList (some c), h') ∧
      (readList h' c).isSome :=
  (VmGroupList.DeepCopyObject_nil_or_list (Framework.copying natDecls) demoHeap).2.1 1
    ⟨⟨7, ⟨8, [1]⟩, none⟩, rfl, fun s hs => by cases hs⟩

/-- C7: on the heap, with a framework clone that shares no backing store
with its input, and a non-nil `VmGroup` `v` whose references are allocated:
`DeepCopy` returns a pointer different from that of `v`; storing any struct
through the clone's pointer, or any content into a backing store of the
clone's `ObjectMeta`, leaves the value of `v` on every field as it is; and
storing any struct through the pointer of `v`, or any content into a backing
store of `v`, leaves the value of the clone as it is. -/
theorem VmGroup.DeepCopy_independent (F : Framework D) (hF : F.NoSharing) (h : Heap D)
    (p : GroupPtr) (v : VmGroup D) (hp : readGroup h p = some v)
    (hv : Allocated h.cells v.ObjectMeta.refs) :
    ∃ c h' w, VmGroup.DeepCopy F h (some p) = some (some c, h') ∧
      readGroup h' c = some w ∧ readGroup h' p = some v ∧ c ≠ p ∧
      (∀ u, ∃ g, writeGroup h' c u = some g ∧ groupValue g p = groupValue h' p) ∧
      (∀ r ∈ w.ObjectMeta.refs, ∀ x,
        groupValue (writeCell h' r x) p = groupValue h' p) ∧
      (∀ u, ∃ g, writeGroup h' p u = some g ∧ groupValue g c = groupValue h' c) ∧
      (∀ r ∈ v.ObjectMeta.refs, ∀ x,
        groupValue (writeCell h' r x) c = groupValue h' c) := by
  have hne : GroupPtr.obj h.groups.length ≠ p := by
    intro he
    subst he
    exact Nat.lt_irrefl _ (readGroup_lt hp)
  have hc : readGroup
      ({ h with
          groups := h.groups ++
            [{ v with ObjectMeta :=
                (F.objectMetaDeepCopyInto v.ObjectMeta v.ObjectMeta h.cells).1 }]
          cells := (F.objectMetaDeepCopyInto v.ObjectMeta v.ObjectMeta h.cells).2 } : Heap D)
      (.obj h.groups.length)
      = some { v with ObjectMeta :=
          (F.objectMetaDeepCopyInto v.ObjectMeta v.ObjectMeta h.cells).1 } := by
    simp [readGroup]
  have hp' : readGroup
      ({ h with
          groups := h.groups ++
            [{ v with ObjectMeta :=
                (F.objectMetaDeepCopyInto v.ObjectMeta v.ObjectMeta h.cells).1 }]
          cells := (F.objectMetaDeepCopyInto v.ObjectMeta v.ObjectMeta h.cells).2 } : Heap D)
      p = some v := by
    cases p with
    | obj a =>
      have ha := readGroup_lt hp
      simpa [readGroup, List.getElem?_append_left ha] using hp
    | elem arr i => simpa [readGroup] using hp
  refine ⟨_, _, _, groupDeepCopy_eq F hp, hc, hp', hne, ?_, ?_, ?_, ?_⟩
  · intro u
    refine ⟨_, writeGroup_eq_put hc u, ?_⟩
    rw [groupValue, groupValue, readGroup_put_other _ (Ne.symm hne), putGroup_cells_get]
  · intro r hr x
    exact groupValue_writeCell hp' r x
      (hF.object_disjoint v.ObjectMeta v.ObjectMeta h.cells hv r hr)
  · intro u
    refine ⟨_, writeGroup_eq_put hp' u, ?_⟩
    rw [groupValue, groupValue, readGroup_put_other _ hne, putGroup_cells_get]
  · intro r hr x
    exact groupValue_writeCell hc r x
      (fun hm => hF.object_disjoint v.ObjectMeta v.ObjectMeta h.cells hv r hm hr)

/-- C7 at the object of the demo heap, with the copying framework clone. -/
theorem VmGroup.DeepCopy_independent_witness :
    (Framework.copying natDecls).NoSharing ∧
    readGroup demoHeap (.obj 0) = some demoGroup ∧
    Allocated demoHeap.cells demoGroup.ObjectMeta.refs ∧
    ∃ c h' w, VmGroup.DeepCopy (Framework.copying natDecls) demoHeap (some (.obj 0))
        = some (some c, h') ∧
      readGroup h' c = some w ∧ readGroup h' (.obj 0) = some demoGroup ∧ c ≠ .obj 0 ∧
      (∀ u, ∃ g, writeGroup h' c u = some g ∧
        groupValue g (.obj 0) = groupValue h' (.obj 0)) ∧
      (∀ r ∈ w.ObjectMeta.refs, ∀ x,
        groupValue (writeCell h' r x) (.obj 0) = groupValue h' (.obj 0)) ∧
      (∀ u, ∃ g, writeGroup h' (.obj 0) u = some g ∧
        groupValue g c = groupValue h' c) ∧
      (∀ r ∈ demoGroup.ObjectMeta.refs, ∀ x,
        groupValue (writeCell h' r x) c = groupValue h' c) :=
  ⟨Framework.copying_noSharing natDecls, rfl, by decide,
    VmGroup.DeepCopy_independent (Framework.copying natDecls)
      (Framework.copying_noSharing natDecls) demoHeap (.obj 0) demoGroup rfl (by decide)⟩

/-- C8: for a non-nil `VmGroupList` with non-nil `Items`, two clones taken
one after the other have `Items` of the source's length in two backing
arrays that `DeepCopy` allocated, different from each other and from the
source's; storing any struct into element `i` of the first clone leaves
every element of the source and of the second clone as it is, and storing
any struct into element `i` of the source after cloning leaves every element
of both clones as it is. -/
theorem VmGroupList.DeepCopy_items_independent (F : Framework D) (h : Heap D)
    (a : Addr) (L : VmGroupList D) (s : Slice) (xs : List (VmGroup D))
    (hL : readList h a = some L) (hI : L.Items = some s)
    (hxs : readItems h s = some xs) :
    ∃ c1 h1 c2 h2 L1 L2 t1 t2,
      VmGroupList.DeepCopy F h (some a) = some (some c1, h1) ∧
      VmGroupList.DeepCopy F h1 (some a) = some (some c2, h2) ∧
      readList h2 a = some L ∧ readList h2 c1 = some L1 ∧ readList h2 c2 = some L2 ∧
      L1.Items = some t1 ∧ L2.Items = some t2 ∧ t1.len = s.len ∧ t2.len = s.len ∧
      h.arrays.length ≤ t1.arr ∧ h1.arrays.length ≤ t2.arr ∧
      t1.arr ≠ s.arr ∧ t2.arr ≠ s.arr ∧ t1.arr ≠ t2.arr ∧
      (∀ i, i < s.len → ∀ u, ∃ g,
        writeGroup h2 (.elem t1.arr (t1.off + i)) u = some g ∧
        g.cells = h2.cells ∧ g.lists = h2.lists ∧
        ∀ j, readGroup g (.elem s.arr (s.off + j))
              = readGroup h2 (.elem s.arr (s.off + j)) ∧
            readGroup g (.elem t2.arr (t2.off + j))
              = readGroup h2 (.elem t2.arr (t2.off + j))) ∧
      (∀ i, i < s.len → ∀ u, ∃ g,
        writeGroup h2 (.elem s.arr (s.off + i)) u = some g ∧
        g.cells = h2.cells ∧ g.lists = h2.lists ∧
        ∀ j, readGroup g (.elem t1.arr (t1.off + j))
              = readGroup h2 (.elem t1.arr (t1.off + j)) ∧
            readGroup g (.elem t2.arr (t2.off + j))
              = readGroup h2 (.elem t2.arr (t2.off + j))) := by
  obtain ⟨h1, L1, ys1, d1, _, l1, a1, n1, i1, hL1, hxs1⟩ := listDeepCopy_shape F hL hI hxs
  obtain ⟨h2, L2, ys2, d2, _, l2, a2, n2, i2, hL2, hxs2⟩ :=
    listDeepCopy_shape F hL1 hI hxs1
  obtain ⟨arr, harr, hle, _⟩ := readItems_some hxs
  have hsa : s.arr < h.arrays.length := by
    by_contra hc
    simp [List.getElem?_eq_none (Nat.le_of_not_lt hc)] at harr
  have hlen1 : h1.arrays.length = h.arrays.length + 1 := by simp [a1]
  have hs1 : h.arrays.length ≠ s.arr := Nat.ne_of_gt hsa
  have hs2 : h1.arrays.length ≠ s.arr := by
    rw [hlen1]
    exact Nat.ne_of_gt (Nat.lt_succ_of_lt hsa)
  have h12 : h.arrays.length ≠ h1.arrays.length := by
    rw [hlen1]
    exact Nat.ne_of_lt (Nat.lt_succ_self _)
  have hc1 : readList h2 h.lists.length = some L1 := by
    have hlt : h.lists.length < (h.lists ++ [L1]).length := by simp
    simp only [readList, l2, l1]
    rw [List.getElem?_append_left hlt]
    simp
  have hc2 : readList h2 h1.lists.length = some L2 := by
    simp [readList, l2]
  have hsrc : ∀ i, i < s.len →
      ∃ o, readGroup h2 (.elem s.arr (s.off + i)) = some o := by
    intro i hi
    have hj : s.off + i < arr.length := by omega
    have hsa1 : s.arr < h1.arrays.length := by
      rw [hlen1]
      exact Nat.lt_succ_of_lt hsa
    rw [readGroup_front a2 hsa1, readGroup_front a1 hsa]
    exact ⟨arr[s.off + i], by simp [readGroup, harr, List.getElem?_eq_getElem hj]⟩
  have hcl1 : ∀ i, i < s.len →
      ∃ o, readGroup h2 (.elem h.arrays.length (0 + i)) = some o := by
    intro i hi
    have hlt : h.arrays.length < h1.arrays.length := by
      rw [hlen1]
      exact Nat.lt_succ_self _
    have hiy : i < ys1.length := n1 ▸ hi
    rw [readGroup_front a2 hlt, readGroup_last a1, Nat.zero_add,
      List.getElem?_eq_getElem hiy]
    exact ⟨_, rfl⟩
  refine ⟨_, h1, _, h2, L1, L2, _, _, d1, d2, hL2, hc1, hc2, i1, i2, rfl, rfl,
    Nat.le_refl _, Nat.le_refl _, hs1, hs2, h12, ?_, ?_⟩
  · intro i hi u
    obtain ⟨o, ho⟩ := hcl1 i hi
    obtain ⟨g, hg, hcells, hlists, hfr⟩ := writeGroup_frame ho u
    exact ⟨g, hg, hcells, hlists, fun j =>
      ⟨hfr _ (elem_ne_of_arr_ne (Ne.symm hs1) _ _),
       hfr _ (elem_ne_of_arr_ne (Ne.symm h12) _ _)⟩⟩
  · intro i hi u
    obtain ⟨o, ho⟩ := hsrc i hi
    obtain ⟨g, hg, hcells, hlists, hfr⟩ := writeGroup_frame ho u
    exact ⟨g, hg, hcells, hlists, fun j =>
      ⟨hfr _ (elem_ne_of_arr_ne hs1 _ _), hfr _ (elem_ne_of_arr_ne hs2 _ _)⟩⟩

/-- C8 at the first list of the demo heap, with the copying framework
clone. -/
theorem VmGroupList.DeepCopy_items_independent_witness :
    readItems demoHeap ⟨0, 1, 2⟩ = some [demoGroup, demoGroup2] ∧
    ∃ c1 h1 c2 h2 L1 L2 t1 t2,
      VmGroupList.DeepCopy (Framework.copying natDecls) demoHeap (some 0)
        = some (some c1, h1) ∧
      VmGroupList.DeepCopy (Framework.copying natDecls) h1 (some 0)
        = some (some c2, h2) ∧
      readList h2 c1 = some L1 ∧ readList h2 c2 = some L2 ∧
      L1.Items = some t1 ∧ L2.Items = some t2 ∧
      t1.arr ≠ 0 ∧ t2.arr ≠ 0 ∧ t1.arr ≠ t2.arr ∧
      (∀ i, i < 2 → ∀ u, ∃ g,
        writeGroup h2 (.elem t1.arr (t1.off + i)) u = some g ∧
        ∀ j, readGroup g (.elem 0 (1 + j)) = readGroup h2 (.elem 0 (1 + j)) ∧
            readGroup g (.elem t2.arr (t2.off + j))
              = readGroup h2 (.elem t2.arr (t2.off + j))) :=
  ⟨rfl, by
    obtain ⟨c1, h1, c2, h2, L1, L2, t1, t2, e1, e2, _, e4, e5, e6, e7, _, _, _, _,
        e12, e13, e14, e15, _⟩ :=
      VmGroupList.DeepCopy_items_independent (Framework.copying natDecls) demoHeap 0
        ⟨7, ⟨8, [1]⟩, some ⟨0, 1, 2⟩⟩ ⟨0, 1, 2⟩ [demoGroup, demoGroup2] rfl rfl rfl
    refine ⟨c1, h1, c2, h2, L1, L2, t1, t2, e1, e2, e4, e5, e6, e7, e12, e13, e14, ?_⟩
    intro i hi u
    obtain ⟨g, hg, _, _, hfr⟩ := e15 i hi u
    exact ⟨g, hg, hfr⟩⟩

/-- C9: with a value-preserving framework clone, for a non-nil `VmGroup`
`v` whose references are allocated, `DeepCopy(DeepCopy(v))` is non-nil and
has the value of `v` and of `DeepCopy(v)` on every field; and for a non-nil
`VmGroupList` whose references are allocated, `DeepCopy(DeepCopy(L))` is
non-nil and has the value of `L` and of `DeepCopy(L)`, nil `Items` staying
nil and empty `Items` staying empty. -/
theorem DeepCopy_twice_value_eq (F : Framework D) (hF : F.ValuePreserving) (h : Heap D)
    (p : GroupPtr) (v : VmGroup D) (hp : readGroup h p = some v)
    (hv : Allocated h.cells v.ObjectMeta.refs) (a : Addr) (ha : AllocatedList h a) :
    (∃ c1 h1 c2 h2, VmGroup.DeepCopy F h (some p) = some (some c1, h1) ∧
      VmGroup.DeepCopy F h1 (some c1) = some (some c2, h2) ∧
      (groupValue h2 c2).isSome ∧
      groupValue h2 c2 = groupValue h p ∧ groupValue h2 c2 = groupValue h1 c1) ∧
    (∃ c1 h1 c2 h2, VmGroupList.DeepCopy F h (some a) = some (some c1, h1) ∧
      VmGroupList.DeepCopy F h1 (some c1) = some (some c2, h2) ∧
      (listValue h2 c2).isSome ∧
      listValue h2 c2 = listValue h a ∧ listValue h2 c2 = listValue h1 c1) := by
  constructor
  · obtain ⟨c1, h1, w1, d1, r1, al1, v1⟩ := groupDeepCopy_value F hF hp hv
    obtain ⟨c2, h2, w2, d2, r2, _, v2⟩ := groupDeepCopy_value F hF r1 al1
    refine ⟨c1, h1, c2, h2, d1, d2, ?_, v2.trans v1, v2⟩
    simp [groupValue, r2]
  · obtain ⟨c1, h1, d1, al1, v1⟩ := listDeepCopy_value F hF ha
    obtain ⟨c2, h2, d2, al2, v2⟩ := listDeepCopy_value F hF al1
    exact ⟨c1, h1, c2, h2, d1, d2, listValue_isSome al2, v2.trans v1, v2⟩

/-- C9 at the object and the first list of the demo heap, with the copying
framework clone. -/
theorem DeepCopy_twice_value_eq_witness :
    (Framework.copying natDecls).ValuePreserving ∧
    AllocatedList demoHeap 0 ∧
    (∃ c1 h1 c2 h2,
      VmGroup.DeepCopy (Framework.copying natDecls) demoHeap (some (.obj 0))
        = some (some c1, h1) ∧
      VmGroup.DeepCopy (Framework.copying natDecls) h1 (some c1) = some (some c2, h2) ∧
      (groupValue h2 c2).isSome ∧
      groupValue h2 c2 = groupValue demoHeap (.obj 0) ∧
      groupValue h2 c2 = groupValue h1 c1) ∧
    (∃ c1 h1 c2 h2,
      VmGroupList.DeepCopy (Framework.copying natDecls) demoHeap (some 0)
        = some (some c1, h1) ∧
      VmGroupList.DeepCopy (Framework.copying natDecls) h1 (some c1)
        = some (some c2, h2) ∧
      (listValue h2 c2).isSome ∧
      listValue h2 c2 = listValue demoHeap 0 ∧ listValue h2 c2 = listValue h1 c1) :=
  have hd : AllocatedList demoHeap 0 :=
    ⟨⟨7, ⟨8, [1]⟩, some ⟨0, 1, 2⟩⟩, rfl, by decide, fun s hs => by
      cases hs
      exact ⟨[demoGroup, demoGroup2], rfl, by decide⟩⟩
  ⟨Framework.copying_valuePreserving natDecls, hd,
    DeepCopy_twice_value_eq (Framework.copying natDecls)
      (Framework.copying_valuePreserving natDecls) demoHeap (.obj 0) demoGroup rfl
      (by decide) 0 hd⟩

/-- C10: for each leaf record type, `DeepCopy` of a valid non-nil record
`r` returns a non-nil pointer to a record equal to `r` in every field (for
`VmGroupStatus`, in particular, with the `VmOperator` of `r`), whatever the
heap and wherever `r` lies in it. -/
theorem leaf_DeepCopy_eq (h : Heap D) :
    (∀ p r, readSpec h p = some r →
      ∃ c h', VmGroupSpec.DeepCopy h (some p) = some (some c, h') ∧
        readSpec h' c = some r) ∧
    (∀ p r, readOperator h p = some r →
      ∃ c h', VmOperatorStatus.DeepCopy h (some p) = some (some c, h') ∧
        readOperator h' c = some r) ∧
    (∀ p r, readStatus h p = some r →
      ∃ c h' w, VmGroupStatus.DeepCopy h (some p) = some (some c, h') ∧
        readStatus h' c = some w ∧ w = r ∧ w.VmOperator = r.VmOperator) := by
  refine ⟨?_, ?_, ?_⟩
  · intro p r hp
    exact ⟨_, _, specDeepCopy_eq hp, by simp [readSpec]⟩
  · intro p r hp
    exact ⟨_, _, operatorDeepCopy_eq hp, by simp [readOperator]⟩
  · intro p r hp
    exact ⟨_, _, r, statusDeepCopy_eq hp, by simp [readStatus], rfl, rfl⟩

/-- C10 in the demo heap: the three leaf objects, and the `Spec`, `Status`
and `Status.VmOperator` fields of its `VmGroup`. -/
theorem leaf_DeepCopy_eq_witness :
    (∃ c h', VmGroupSpec.DeepCopy demoHeap (some (.obj 0)) = some (some c, h') ∧
      readSpec h' c = some ⟨21⟩) ∧
    (∃ c h', VmGroupSpec.DeepCopy demoHeap (some (.ofGroup (.obj 0))) = some (some c, h') ∧
      readSpec h' c = some ⟨3⟩) ∧
    (∃ c h', VmOperatorStatus.DeepCopy demoHeap (some (.ofStatus (.ofGroup (.obj 0))))
        = some (some c, h') ∧
      readOperator h' c = some ⟨4⟩) ∧
    (∃ c h' w, VmGroupStatus.DeepCopy demoHeap (some (.obj 0)) = some (some c, h') ∧
      readStatus h' c = some w ∧ w = ⟨⟨22⟩, 23⟩ ∧
      w.VmOperator = (⟨22⟩ : VmOperatorStatus natDecls)) :=
  ⟨(leaf_DeepCopy_eq demoHeap).1 (.obj 0) ⟨21⟩ rfl,
   (leaf_DeepCopy_eq demoHeap).1 (.ofGroup (.obj 0)) ⟨3⟩ rfl,
   (leaf_DeepCopy_eq demoHeap).2.1 (.ofStatus (.ofGroup (.obj 0))) ⟨4⟩ rfl,
   (leaf_DeepCopy_eq demoHeap).2.2 (.obj 0) ⟨⟨22⟩, 23⟩ rfl⟩

/-! ### Cloning into a destination that is not the source -/

theorem listDeepCopyInto_nil_items (F : Framework D) {h : Heap D} {a b : Addr}
    {L : VmGroupList D} (hL : readList h a = some L) (hI : L.Items = none)
    (hb : b < h.lists.length) (hab : b ≠ a) :
    VmGroupList.DeepCopyInto F h a b
      = some { h with
          lists := h.lists.set b
            ⟨L.TypeMeta, (F.listMetaDeepCopyInto L.ListMeta L.ListMeta h.cells).1, none⟩
          cells := (F.listMetaDeepCopyInto L.ListMeta L.ListMeta h.cells).2 } := by
  obtain ⟨tm, lm, it⟩ := L
  simp only at hI
  subst hI
  simp only [readList] at hL
  simp [VmGroupList.DeepCopyInto, readList, writeList, modifyList, hL, hb,
    List.getElem?_set_ne hab]

theorem listDeepCopyInto_items (F : Framework D) {h : Heap D} {a b : Addr}
    {L : VmGroupList D} {s : Slice} {xs : List (VmGroup D)}
    (hL : readList h a = some L) (hI : L.Items = some s)
    (hxs : readItems h s = some xs) (hb : b < h.lists.length) (hab : b ≠ a) :
    VmGroupList.DeepCopyInto F h a b
      = some { h with
          lists := h.lists.set b
            ⟨L.TypeMeta, (F.listMetaDeepCopyInto L.ListMeta L.ListMeta h.cells).1,
              some ⟨h.arrays.length, 0, s.len⟩⟩
          arrays := h.arrays ++
            [(cloneItems F (F.listMetaDeepCopyInto L.ListMeta L.ListMeta h.cells).2 xs).1]
          cells :=
            (cloneItems F (F.listMetaDeepCopyInto L.ListMeta L.ListMeta h.cells).2 xs).2 } := by
  obtain ⟨tm, lm, it⟩ := L
  simp only at hI
  subst hI
  obtain ⟨arr, harr, hle, rfl⟩ := readItems_some hxs
  have hsa : s.arr < h.arrays.length := by
    by_contra hc
    simp [List.getElem?_eq_none (Nat.le_of_not_lt hc)] at harr
  have hsne : s.arr ≠ h.arrays.length := Nat.ne_of_lt hsa
  simp only [readList] at hL
  simp only [VmGroupList.DeepCopyInto, readList, writeList, modifyList, makeItems,
    Option.bind_eq_bind, hL, Option.some_bind, hb, if_true, List.length_set,
    List.getElem?_set_ne hab, List.getElem?_set_self hb, List.set_set, pure]
  rw [copyItems_eq F ⟨tm, lm, some s⟩
    ⟨tm, (F.listMetaDeepCopyInto lm lm h.cells).1, some ⟨h.arrays.length, 0, s.len⟩⟩
    arr hsne rfl rfl hle s.len 0 _ (List.replicate s.len (zeroGroup D))
    (by simp)
    (by simp [List.getElem?_set_ne hab, hL])
    (by simp [hb])
    (by simp [List.getElem?_append_left hsa, harr])
    (by simp)
    (by simp)]
  simp

theorem groupValue_of_keeps {h g : Heap D} {p : GroupPtr} {v : VmGroup D}
    (hp : readGroup h p = some v) (hg : readGroup g p = some v)
    (hk : ∀ a : Addr, a < h.cells.length → g.cells[a]? = h.cells[a]?)
    (hv : Allocated h.cells v.ObjectMeta.refs) :
    groupValue g p = groupValue h p := by
  rw [groupValue, groupValue, hp, hg]
  simp only [Option.map_some', Option.some.injEq, VmGroup.value, ObjectMeta.value,
    GroupValue.mk.injEq, Prod.mk.injEq, true_and, and_true]
  exact deref_congr hk hv

theorem readItems_append {h g : Heap D} {ext : List (List (VmGroup D))}
    (harr : g.arrays = h.arrays ++ ext) {s : Slice} (hs : (readItems h s).isSome) :
    readItems g s = readItems h s := by
  obtain ⟨xs, hxs⟩ := Option.isSome_iff_exists.mp hs
  obtain ⟨arr, ha, _, _⟩ := readItems_some hxs
  have hsa : s.arr < h.arrays.length := by
    by_contra hc
    simp [List.getElem?_eq_none (Nat.le_of_not_lt hc)] at ha
  simp [readItems, harr, List.getElem?_append_left hsa]

theorem listValue_of_keeps {h g : Heap D} {a : Addr} {L : VmGroupList D}
    (hL : readList h a = some L) (hg : readList g a = some L)
    (hitems : ∀ s, L.Items = some s → readItems g s = readItems h s)
    (hk : ∀ r : Addr, r < h.cells.length → g.cells[r]? = h.cells[r]?)
    (ha : AllocatedList h a) :
    listValue g a = listValue h a := by
  obtain ⟨L', hL', hLM, hIt⟩ := ha
  have hLL : L' = L := Option.some.inj (hL'.symm.trans hL)
  subst hLL
  have hmeta : L'.ListMeta.value g.cells = L'.ListMeta.value h.cells := by
    simp only [ListMeta.value, Prod.mk.injEq, true_and]
    exact deref_congr hk hLM
  rw [listValue, listValue, hL, hg]
  cases hi : L'.Items with
  | none => simp [hi, hmeta]
  | some s =>
    obtain ⟨xs, hxs, hX⟩ := hIt s hi
    have hvals : xs.map (VmGroup.value g.cells) = xs.map (VmGroup.value h.cells) := by
      apply List.map_congr_left
      intro x hx
      simp only [VmGroup.value, ObjectMeta.value, GroupValue.mk.injEq, Prod.mk.injEq,
        true_and, and_true]
      exact deref_congr hk (hX x hx)
    simp [hi, hitems s hi, hxs, hmeta, hvals]

theorem listClone_keeps (F : Framework D) (hF : F.ValuePreserving) {h : Heap D}
    {L : VmGroupList D} {xs : List (VmGroup D)}
    (hLM : Allocated h.cells L.ListMeta.refs)
    (hX : ∀ x ∈ xs, Allocated h.cells x.ObjectMeta.refs) :
    ∀ r : Addr, r < h.cells.length →
      (cloneItems F (F.listMetaDeepCopyInto L.ListMeta L.ListMeta h.cells).2 xs).2[r]?
        = h.cells[r]? := by
  intro r hr
  have hkeep := hF.list_keeps L.ListMeta L.ListMeta h.cells hLM
  obtain ⟨_, hk, _⟩ := cloneItems_value F hF
    (F.listMetaDeepCopyInto L.ListMeta L.ListMeta h.cells).2 xs
    (fun x hx => allocated_mono hkeep (hX x hx))
  rw [hk r (Nat.lt_of_lt_of_le hr (length_le_of_keeps hkeep)), hkeep r hr]

theorem readList_lt {h : Heap D} {a : Addr} {L : VmGroupList D}
    (hL : readList h a = some L) : a < h.lists.length := by
  by_contra hc
  simp [readList, List.getElem?_eq_none (Nat.le_of_not_lt hc)] at hL

theorem allocatedList_parts {h : Heap D} {a : Addr} {L : VmGroupList D}
    (hL : readList h a = some L) (ha : AllocatedList h a) :
    Allocated h.cells L.ListMeta.refs ∧
      ∀ s, L.Items = some s →
        ∃ xs, readItems h s = some xs ∧ ∀ x ∈ xs, Allocated h.cells x.ObjectMeta.refs := by
  obtain ⟨L', hL', hLM, hIt⟩ := ha
  have hLL : L' = L := Option.some.inj (hL'.symm.trans hL)
  subst hLL
  exact ⟨hLM, hIt⟩

/-- C11: the clone operations only read their source.  For a valid
`VmGroup` source and a valid destination that is not the source,
`DeepCopyInto` returns and the struct of the source is as before; the same
holds after `DeepCopy` and `DeepCopyObject`.  For a valid `VmGroupList`
source and a valid destination that is not the source, `DeepCopyInto`
returns, the struct of the source (so the length of its `Items`) is as
before and so is every element of its `Items`; the same holds after
`DeepCopy` and `DeepCopyObject`.  In each case, when the framework's clone is
value-preserving and the references of the source are allocated, the value
of the source, backing stores included, is as before. -/
theorem DeepCopyInto_source_unchanged (F : Framework D) (h : Heap D) :
    (∀ inp out v, readGroup h inp = some v → (readGroup h out).isSome → out ≠ inp →
      ∃ g, VmGroup.DeepCopyInto F h inp out = some g ∧ readGroup g inp = some v ∧
        (F.ValuePreserving → Allocated h.cells v.ObjectMeta.refs →
          groupValue g inp = groupValue h inp)) ∧
    (∀ p v, readGroup h p = some v →
      ∃ c g, VmGroup.DeepCopy F h (some p) = some (some c, g) ∧
        VmGroup.DeepCopyObject F h (some p) = some (Object.vmGroup (some c), g) ∧
        readGroup g p = some v ∧
        (F.ValuePreserving → Allocated h.cells v.ObjectMeta.refs →
          groupValue g p = groupValue h p)) ∧
    (∀ a b L, readList h a = some L →
      (∀ s, L.Items = some s → (readItems h s).isSome) →
      (readList h b).isSome → b ≠ a →
      ∃ g, VmGroupList.DeepCopyInto F h a b = some g ∧ readList g a = some L ∧
        (∀ s, L.Items = some s → readItems g s = readItems h s) ∧
        (F.ValuePreserving → AllocatedList h a → listValue g a = listValue h a)) ∧
    (∀ a L, readList h a = some L →
      (∀ s, L.Items = some s → (readItems h s).isSome) →
      ∃ c g, VmGroupList.DeepCopy F h (some a) = some (some c, g) ∧
        VmGroupList.DeepCopyObject F h (some a) = some (Object.vmGroupList (some c), g) ∧
        readList g a = some L ∧
        (∀ s, L.Items = some s → readItems g s = readItems h s) ∧
        (F.ValuePreserving → AllocatedList h a → listValue g a = listValue h a)) := by
  refine ⟨?_, ?_, ?_, ?_⟩
  · intro inp out v hin hout hne
    obtain ⟨o, ho⟩ := Option.isSome_iff_exists.mp hout
    have hg : readGroup (putGroup
        ({ h with cells := (F.objectMetaDeepCopyInto v.ObjectMeta v.ObjectMeta h.cells).2 }
          : Heap D) out
        { v with ObjectMeta :=
            (F.objectMetaDeepCopyInto v.ObjectMeta v.ObjectMeta h.cells).1 }) inp
        = some v := by
      rw [readGroup_put_other _ (Ne.symm hne), readGroup_cells]
      exact hin
    refine ⟨_, groupDeepCopyInto_eq F hin ho, hg, ?_⟩
    intro hF hv
    refine groupValue_of_keeps hin hg ?_ hv
    rw [putGroup_cells_get]
    exact hF.object_keeps v.ObjectMeta v.ObjectMeta h.cells hv
  · intro p v hp
    have hg : readGroup
        ({ h with
            groups := h.groups ++
              [{ v with ObjectMeta :=
                  (F.objectMetaDeepCopyInto v.ObjectMeta v.ObjectMeta h.cells).1 }]
            cells := (F.objectMetaDeepCopyInto v.ObjectMeta v.ObjectMeta h.cells).2 }
          : Heap D) p = some v := by
      cases p with
      | obj a =>
        have ha := readGroup_lt hp
        simpa [readGroup, List.getElem?_append_left ha] using hp
      | elem arr i => simpa [readGroup] using hp
    refine ⟨_, _, groupDeepCopy_eq F hp, ?_, hg, ?_⟩
    · simp [VmGroup.DeepCopyObject, groupDeepCopy_eq F hp]
    · intro hF hv
      exact groupValue_of_keeps hp hg
        (hF.object_keeps v.ObjectMeta v.ObjectMeta h.cells hv) hv
  · intro a b L hL hval hb hne
    obtain ⟨o, ho⟩ := Option.isSome_iff_exists.mp hb
    have hbl := readList_lt ho
    cases hi : L.Items with
    | none =>
      have hg : readList
          ({ h with
              lists := h.lists.set b
                ⟨L.TypeMeta, (F.listMetaDeepCopyInto L.ListMeta L.ListMeta h.cells).1, none⟩
              cells := (F.listMetaDeepCopyInto L.ListMeta L.ListMeta h.cells).2 } : Heap D) a
          = some L := by
        simpa [readList, List.getElem?_set_ne hne] using hL
      refine ⟨_, listDeepCopyInto_nil_items F hL hi hbl hne, hg, ?_, ?_⟩
      · intro s hs
        cases hs
      · intro hF ha
        obtain ⟨hLM, _⟩ := allocatedList_parts hL ha
        refine listValue_of_keeps hL hg ?_
          (hF.list_keeps L.ListMeta L.ListMeta h.cells hLM) ha
        intro s hs
        rw [hi] at hs
        cases hs
    | some s =>
      obtain ⟨xs, hxs⟩ := Option.isSome_iff_exists.mp (hval s hi)
      have hg : readList
          ({ h with
              lists := h.lists.set b
                ⟨L.TypeMeta, (F.listMetaDeepCopyInto L.ListMeta L.ListMeta h.cells).1,
                  some ⟨h.arrays.length, 0, s.len⟩⟩
              arrays := h.arrays ++
                [(cloneItems F (F.listMetaDeepCopyInto L.ListMeta L.ListMeta h.cells).2 xs).1]
              cells :=
                (cloneItems F (F.listMetaDeepCopyInto L.ListMeta L.ListMeta h.cells).2 xs).2 }
            : Heap D) a
          = some L := by
        simpa [readList, List.getElem?_set_ne hne] using hL
      have hit : ∀ t, L.Items = some t → readItems
          ({ h with
              lists := h.lists.set b
                ⟨L.TypeMeta, (F.listMetaDeepCopyInto L.ListMeta L.ListMeta h.cells).1,
                  some ⟨h.arrays.length, 0, s.len⟩⟩
              arrays := h.arrays ++
                [(cloneItems F (F.listMetaDeepCopyInto L.ListMeta L.ListMeta h.cells).2 xs).1]
              cells :=
                (cloneItems F (F.listMetaDeepCopyInto L.ListMeta L.ListMeta h.cells).2 xs).2 }
            : Heap D) t
          = readItems h t :=
        fun t ht => readItems_append rfl (hval t ht)
      refine ⟨_, listDeepCopyInto_items F hL hi hxs hbl hne, hg,
        fun t ht => hit t (hi.trans ht), ?_⟩
      intro hF ha
      obtain ⟨hLM, hIt⟩ := allocatedList_parts hL ha
      obtain ⟨xs', hxs', hX⟩ := hIt s hi
      have hxx : xs' = xs := Option.some.inj (hxs'.symm.trans hxs)
      subst hxx
      exact listValue_of_keeps hL hg hit (listClone_keeps F hF hLM hX) ha
  · intro a L hL hval
    have hal := readList_lt hL
    cases hi : L.Items with
    | none =>
      have hg : readList
          ({ h with
              lists := h.lists ++
                [⟨L.TypeMeta, (F.listMetaDeepCopyInto L.ListMeta L.ListMeta h.cells).1, none⟩]
              cells := (F.listMetaDeepCopyInto L.ListMeta L.ListMeta h.cells).2 } : Heap D) a
          = some L := by
        simpa [readList, List.getElem?_append_left hal] using hL
      refine ⟨_, _, listDeepCopy_nil_items F hL hi, ?_, hg, ?_, ?_⟩
      · simp [VmGroupList.DeepCopyObject, listDeepCopy_nil_items F hL hi]
      · intro s hs
        cases hs
      · intro hF ha
        obtain ⟨hLM, _⟩ := allocatedList_parts hL ha
        refine listValue_of_keeps hL hg ?_
          (hF.list_keeps L.ListMeta L.ListMeta h.cells hLM) ha
        intro s hs
        rw [hi] at hs
        cases hs
    | some s =>
      obtain ⟨xs, hxs⟩ := Option.isSome_iff_exists.mp (hval s hi)
      have hg : readList
          ({ h with
              lists := h.lists ++
                [⟨L.TypeMeta, (F.listMetaDeepCopyInto L.ListMeta L.ListMeta h.cells).1,
                  some ⟨h.arrays.length, 0, s.len⟩⟩]
              arrays := h.arrays ++
                [(cloneItems F (F.listMetaDeepCopyInto L.ListMeta L.ListMeta h.cells).2 xs).1]
              cells :=
                (cloneItems F (F.listMetaDeepCopyInto L.ListMeta L.ListMeta h.cells).2 xs).2 }
            : Heap D) a
          = some L := by
        simpa [readList, List.getElem?_append_left hal] using hL
      have hit : ∀ t, L.Items = some t → readItems
          ({ h with
              lists := h.lists ++
                [⟨L.TypeMeta, (F.listMetaDeepCopyInto L.ListMeta L.ListMeta h.cells).1,
                  some ⟨h.arrays.length, 0, s.len⟩⟩]
              arrays := h.arrays ++
                [(cloneItems F (F.listMetaDeepCopyInto L.ListMeta L.ListMeta h.cells).2 xs).1]
              cells :=
                (cloneItems F (F.listMetaDeepCopyInto L.ListMeta L.ListMeta h.cells).2 xs).2 }
            : Heap D) t
          = readItems h t :=
        fun t ht => readItems_append rfl (hval t ht)
      refine ⟨_, _, listDeepCopy_items F hL hi hxs, ?_, hg,
        fun t ht => hit t (hi.trans ht), ?_⟩
      · simp [VmGroupList.DeepCopyObject, listDeepCopy_items F hL hi hxs]
      · intro hF ha
        obtain ⟨hLM, hIt⟩ := allocatedList_parts hL ha
        obtain ⟨xs', hxs', hX⟩ := hIt s hi
        have hxx : xs' = xs := Option.some.inj (hxs'.symm.trans hxs)
        subst hxx
        exact listValue_of_keeps hL hg hit (listClone_keeps F hF hLM hX) ha

/-- C11 in the demo heap, with the copying framework clone: the object
copied over an element of the backing array, and the first list copied over
the second. -/
theorem DeepCopyInto_source_unchanged_witness :
    (∃ g, VmGroup.DeepCopyInto (Framework.copying natDecls) demoHeap (.obj 0) (.elem 0 3)
        = some g ∧
      readGroup g (.obj 0) = some demoGroup ∧
      groupValue g (.obj 0) = groupValue demoHeap (.obj 0)) ∧
    (∃ g, VmGroupList.DeepCopyInto (Framework.copying natDecls) demoHeap 0 1 = some g ∧
      readList g 0 = some ⟨7, ⟨8, [1]⟩, some ⟨0, 1, 2⟩⟩ ∧
      readItems g ⟨0, 1, 2⟩ = some [demoGroup, demoGroup2] ∧
      listValue g 0 = listValue demoHeap 0) :=
  have hd : AllocatedList demoHeap 0 :=
    ⟨⟨7, ⟨8, [1]⟩, some ⟨0, 1, 2⟩⟩, rfl, by decide, fun s hs => by
      cases hs
      exact ⟨[demoGroup, demoGroup2], rfl, by decide⟩⟩
  ⟨by
    obtain ⟨g, h1, h2, h3⟩ :=
      (DeepCopyInto_source_unchanged (Framework.copying natDecls) demoHeap).1
        (.obj 0) (.elem 0 3) demoGroup rfl rfl (by decide)
    exact ⟨g, h1, h2, h3 (Framework.copying_valuePreserving natDecls) (by decide)⟩,
   by
    obtain ⟨g, h1, h2, h3, h4⟩ :=
      (DeepCopyInto_source_unchanged (Framework.copying natDecls) demoHeap).2.2.1
        0 1 ⟨7, ⟨8, [1]⟩, some ⟨0, 1, 2⟩⟩ rfl
        (fun s hs => by
          cases hs
          rfl)
        rfl (by decide)
    exact ⟨g, h1, h2, (h3 ⟨0, 1, 2⟩ rfl).trans rfl,
      h4 (Framework.copying_valuePreserving natDecls) hd⟩⟩

/-! ### Totality -/

theorem copyItems_add (F : Framework D) (a b : Addr) (k1 k2 : Nat) :
    ∀ (i : Nat) (g : Heap D),
      VmGroupList.copyItems F a b (k1 + k2) i g
        = (VmGroupList.copyItems F a b k1 i g).bind
            (VmGroupList.copyItems F a b k2 (i + k1)) := by
  induction k1 with
  | zero =>
    intro i g
    simp [VmGroupList.copyItems]
  | succ k ih =>
    intro i g
    have hk : k + 1 + k2 = (k + k2) + 1 := by omega
    rw [hk]
    simp only [VmGroupList.copyItems, Option.bind_eq_bind, Option.bind_assoc]
    congr 1
    funext src
    congr 1
    funext dst
    congr 1
    funext g'
    rw [ih (i + 1) g']
    have hi : i + 1 + k = i + (k + 1) := by omega
    rw [hi]

theorem readItems_isSome_put {g : Heap D} (p : GroupPtr) (w : VmGroup D) (cs : List D.Cell)
    {s : Slice} (hs : (readItems g s).isSome) :
    (readItems (putGroup { g with cells := cs } p w) s).isSome := by
  obtain ⟨xs, hxs⟩ := Option.isSome_iff_exists.mp hs
  obtain ⟨arr, harr, hle, _⟩ := readItems_some hxs
  have hsa : s.arr < g.arrays.length := by
    by_contra hc
    simp [List.getElem?_eq_none (Nat.le_of_not_lt hc)] at harr
  cases p with
  | obj a => simp [putGroup, readItems, harr, hle]
  | elem q i =>
    by_cases hq : q = s.arr
    · subst hq
      simp [putGroup, readItems, harr, hsa, hle]
    · simp [putGroup, readItems, List.getElem?_set_ne hq, harr, hle]

theorem readList_put (g : Heap D) (p : GroupPtr) (w : VmGroup D) (cs : List D.Cell)
    (a : Addr) : readList (putGroup { g with cells := cs } p w) a = readList g a := by
  cases p <;> rfl

theorem readItems_isSome_get {g : Heap D} {s : Slice} (hs : (readItems g s).isSome)
    {i : Nat} (hi : i < s.len) : (readGroup g (.elem s.arr (s.off + i))).isSome := by
  obtain ⟨xs, hxs⟩ := Option.isSome_iff_exists.mp hs
  have hlen := readItems_length hxs
  rw [readItems_getElem? hxs i hi, List.getElem?_eq_getElem (hlen ▸ hi)]
  rfl

theorem copyItems_step (F : Framework D) {g : Heap D} {a b : Addr} {n i : Nat}
    (hr : ItemsInRange g a b n) (hi : i < n) :
    ∃ src dst g', itemPtr g a i = some src ∧ itemPtr g b i = some dst ∧
      (readGroup g src).isSome ∧ (readGroup g dst).isSome ∧
      VmGroup.DeepCopyInto F g src dst = some g' ∧ ItemsInRange g' a b n := by
  obtain ⟨la, lb, sa, sb, hla, hia, hna, hra, hlb, hib, hnb, hrb⟩ := hr
  have hsrc := readItems_isSome_get hra (hna ▸ hi)
  have hdst := readItems_isSome_get hrb (hnb ▸ hi)
  obtain ⟨v, hv⟩ := Option.isSome_iff_exists.mp hsrc
  obtain ⟨o, ho⟩ := Option.isSome_iff_exists.mp hdst
  refine ⟨.elem sa.arr (sa.off + i), .elem sb.arr (sb.off + i), _, ?_, ?_, hsrc, hdst,
    groupDeepCopyInto_eq F hv ho, ?_⟩
  · simp [itemPtr, hla, hia, hna, hi]
  · simp [itemPtr, hlb, hib, hnb, hi]
  · exact ⟨la, lb, sa, sb, by rw [readList_put, hla], hia, hna,
      readItems_isSome_put _ _ _ hra, by rw [readList_put, hlb], hib, hnb,
      readItems_isSome_put _ _ _ hrb⟩

theorem copyItems_run (F : Framework D) {a b : Addr} {n : Nat} :
    ∀ (k i : Nat) (g : Heap D), ItemsInRange g a b n → i + k ≤ n →
      ∃ g', VmGroupList.copyItems F a b k i g = some g' ∧ ItemsInRange g' a b n := by
  intro k
  induction k with
  | zero =>
    intro i g hr _
    exact ⟨g, rfl, hr⟩
  | succ k ih =>
    intro i g hr hik
    obtain ⟨src, dst, g', hs, hd, _, _, hc, hr'⟩ := copyItems_step F hr (by omega : i < n)
    obtain ⟨g'', hrun, hr''⟩ := ih (i + 1) g' hr' (by omega)
    exact ⟨g'', by
      simp only [VmGroupList.copyItems, Option.bind_eq_bind, hs, hd, hc, Option.some_bind]
      exact hrun, hr''⟩

theorem copyItems_iteration (F : Framework D) {g : Heap D} {a b : Addr} {n : Nat}
    (hr : ItemsInRange g a b n) (i : Nat) (hi : i < n) :
    ∃ gi src dst gi', VmGroupList.copyItems F a b i 0 g = some gi ∧
      itemPtr gi a i = some src ∧ itemPtr gi b i = some dst ∧
      (readGroup gi src).isSome ∧ (readGroup gi dst).isSome ∧
      VmGroup.DeepCopyInto F gi src dst = some gi' ∧
      VmGroupList.copyItems F a b (i + 1) 0 g = some gi' := by
  obtain ⟨gi, hgi, hri⟩ := copyItems_run F i 0 g hr (by omega)
  obtain ⟨src, dst, gi', hs, hd, h1, h2, hc, _⟩ := copyItems_step F hri hi
  refine ⟨gi, src, dst, gi', hgi, hs, hd, h1, h2, hc, ?_⟩
  rw [copyItems_add F a b i 1 0 g, hgi]
  simp [VmGroupList.copyItems, hs, hd, hc]

theorem listDeepCopyInto_loop (F : Framework D) {h : Heap D} {a b : Addr}
    {L : VmGroupList D} {s : Slice} (hL : readList h a = some L) (hI : L.Items = some s)
    (hs : (readItems h s).isSome) (hb : (readList h b).isSome) :
    VmGroupList.DeepCopyInto F h a b
      = VmGroupList.copyItems F a b s.len 0
          { h with
            lists := h.lists.set b
              ⟨L.TypeMeta, (F.listMetaDeepCopyInto L.ListMeta L.ListMeta h.cells).1,
                some ⟨h.arrays.length, 0, s.len⟩⟩
            arrays := h.arrays ++ [List.replicate s.len (zeroGroup D)]
            cells := (F.listMetaDeepCopyInto L.ListMeta L.ListMeta h.cells).2 } ∧
    ItemsInRange
      ({ h with
          lists := h.lists.set b
            ⟨L.TypeMeta, (F.listMetaDeepCopyInto L.ListMeta L.ListMeta h.cells).1,
              some ⟨h.arrays.length, 0, s.len⟩⟩
          arrays := h.arrays ++ [List.replicate s.len (zeroGroup D)]
          cells := (F.listMetaDeepCopyInto L.ListMeta L.ListMeta h.cells).2 } : Heap D)
      a b s.len := by
  obtain ⟨tm, lm, it⟩ := L
  simp only at hI
  subst hI
  dsimp only
  obtain ⟨o, ho⟩ := Option.isSome_iff_exists.mp hb
  have hbl := readList_lt ho
  have hnew : (readItems
      ({ h with
          lists := h.lists.set b
            ⟨tm, (F.listMetaDeepCopyInto lm lm h.cells).1, some ⟨h.arrays.length, 0, s.len⟩⟩
          arrays := h.arrays ++ [List.replicate s.len (zeroGroup D)]
          cells := (F.listMetaDeepCopyInto lm lm h.cells).2 } : Heap D)
      ⟨h.arrays.length, 0, s.len⟩).isSome := by
    simp [readItems]
  have hold : (readItems
      ({ h with
          lists := h.lists.set b
            ⟨tm, (F.listMetaDeepCopyInto lm lm h.cells).1, some ⟨h.arrays.length, 0, s.len⟩⟩
          arrays := h.arrays ++ [List.replicate s.len (zeroGroup D)]
          cells := (F.listMetaDeepCopyInto lm lm h.cells).2 } : Heap D) s).isSome := by
    rw [readItems_append (h := h) rfl hs]
    exact hs
  have hrb : readList
      ({ h with
          lists := h.lists.set b
            ⟨tm, (F.listMetaDeepCopyInto lm lm h.cells).1, some ⟨h.arrays.length, 0, s.len⟩⟩
          arrays := h.arrays ++ [List.replicate s.len (zeroGroup D)]
          cells := (F.listMetaDeepCopyInto lm lm h.cells).2 } : Heap D) b
      = some ⟨tm, (F.listMetaDeepCopyInto lm lm h.cells).1,
          some ⟨h.arrays.length, 0, s.len⟩⟩ := by
    simp [readList, hbl]
  simp only [readList] at hL
  by_cases hab : b = a
  · subst hab
    constructor
    · simp [VmGroupList.DeepCopyInto, readList, writeList, modifyList, makeItems, hL, hbl]
    · exact ⟨⟨tm, (F.listMetaDeepCopyInto lm lm h.cells).1,
          some ⟨h.arrays.length, 0, s.len⟩⟩,
        ⟨tm, (F.listMetaDeepCopyInto lm lm h.cells).1, some ⟨h.arrays.length, 0, s.len⟩⟩,
        ⟨h.arrays.length, 0, s.len⟩, ⟨h.arrays.length, 0, s.len⟩,
        hrb, rfl, rfl, hnew, hrb, rfl, rfl, hnew⟩
  · have hra : readList
        ({ h with
            lists := h.lists.set b
              ⟨tm, (F.listMetaDeepCopyInto lm lm h.cells).1,
                some ⟨h.arrays.length, 0, s.len⟩⟩
            arrays := h.arrays ++ [List.replicate s.len (zeroGroup D)]
            cells := (F.listMetaDeepCopyInto lm lm h.cells).2 } : Heap D) a
        = some ⟨tm, lm, some s⟩ := by
      simpa [readList, List.getElem?_set_ne hab] using hL
    constructor
    · simp [VmGroupList.DeepCopyInto, readList, writeList, modifyList, makeItems, hL, hbl,
        List.getElem?_set_ne hab]
    · exact ⟨⟨tm, lm, some s⟩,
        ⟨tm, (F.listMetaDeepCopyInto lm lm h.cells).1, some ⟨h.arrays.length, 0, s.len⟩⟩,
        s, ⟨h.arrays.length, 0, s.len⟩,
        hra, rfl, rfl, hold, hrb, rfl, rfl, hnew⟩

theorem isSome_of_bind {α β : Type} {x : Option α} {f : α → Option β}
    (hx : (x.bind f).isSome) : x.isSome := by
  cases x with
  | none => simp at hx
  | some v => rfl

theorem isSome_of_map {α β : Type} {x : Option α} {f : α → β}
    (hx : (x.map f).isSome) : x.isSome := by
  cases x with
  | none => simp at hx
  | some v => rfl

theorem groupDeepCopy_total (F : Framework D) (h : Heap D) (p : GroupPtr)
    (hp : (readGroup h p).isSome) :
    (readGroup (newGroup h).2 p).isSome ∧
    (readGroup (newGroup h).2 (newGroup h).1).isSome ∧
    (VmGroup.DeepCopyInto F (newGroup h).2 p (newGroup h).1).isSome ∧
    (VmGroup.DeepCopy F h (some p)).isSome ∧
    (VmGroup.DeepCopyObject F h (some p)).isSome := by
  obtain ⟨v, hv⟩ := Option.isSome_iff_exists.mp hp
  have hin := readGroup_newGroup hv
  have hout : readGroup (newGroup h).2 (newGroup h).1 = some (zeroGroup D) := by
    simp [readGroup, newGroup]
  refine ⟨by rw [hin]; rfl, by rw [hout]; rfl, ?_, ?_, ?_⟩
  · rw [groupDeepCopyInto_eq F hin hout]
    rfl
  · rw [groupDeepCopy_eq F hv]
    rfl
  · simp [VmGroup.DeepCopyObject, groupDeepCopy_eq F hv]

theorem listDeepCopy_total (F : Framework D) (h : Heap D) (a : Addr)
    (ha : ValidList h a) :
    (readList (newList h).2 a).isSome ∧
    (readList (newList h).2 (newList h).1).isSome ∧
    (VmGroupList.DeepCopyInto F (newList h).2 a (newList h).1).isSome ∧
    (VmGroupList.DeepCopy F h (some a)).isSome ∧
    (VmGroupList.DeepCopyObject F h (some a)).isSome := by
  obtain ⟨L, hL, hI⟩ := ha
  have hal := readList_lt hL
  have hin : readList (newList h).2 a = some L := by
    simpa [readList, newList, List.getElem?_append_left hal] using hL
  have hout : readList (newList h).2 (newList h).1 = some (zeroList D) := by
    simp [readList, newList]
  have hd : (VmGroupList.DeepCopy F h (some a)).isSome := by
    cases hi : L.Items with
    | none =>
      rw [listDeepCopy_nil_items F hL hi]
      rfl
    | some s =>
      obtain ⟨xs, hxs⟩ := Option.isSome_iff_exists.mp (hI s hi)
      rw [listDeepCopy_items F hL hi hxs]
      rfl
  refine ⟨by rw [hin]; rfl, by rw [hout]; rfl, ?_, hd, ?_⟩
  · exact isSome_of_map (f := fun h1 => (some (newList h).1, h1)) hd
  · simp only [VmGroupList.DeepCopyObject, Option.isSome_map']
    exact hd

theorem specDeepCopy_total (h : Heap D) (p : SpecPtr) (hp : (readSpec h p).isSome) :
    (readSpec (newSpec h).2 p).isSome ∧
    (readSpec (newSpec h).2 (newSpec h).1).isSome ∧
    (VmGroupSpec.DeepCopyInto (newSpec h).2 p (newSpec h).1).isSome ∧
    (VmGroupSpec.DeepCopy h (some p)).isSome := by
  obtain ⟨v, hv⟩ := Option.isSome_iff_exists.mp hp
  have hd : (VmGroupSpec.DeepCopy h (some p)).isSome := by
    rw [specDeepCopy_eq hv]
    rfl
  have hi : (VmGroupSpec.DeepCopyInto (newSpec h).2 p (newSpec h).1).isSome :=
    isSome_of_map (f := fun h1 => (some (newSpec h).1, h1)) hd
  exact ⟨isSome_of_bind hi, by simp [readSpec, newSpec], hi, hd⟩

theorem statusDeepCopy_total (h : Heap D) (p : StatusPtr) (hp : (readStatus h p).isSome) :
    (readStatus (newStatus h).2 p).isSome ∧
    (readStatus (newStatus h).2 (newStatus h).1).isSome ∧
    (VmGroupStatus.DeepCopyInto (newStatus h).2 p (newStatus h).1).isSome ∧
    (VmGroupStatus.DeepCopy h (some p)).isSome := by
  obtain ⟨v, hv⟩ := Option.isSome_iff_exists.mp hp
  have hd : (VmGroupStatus.DeepCopy h (some p)).isSome := by
    rw [statusDeepCopy_eq hv]
    rfl
  have hi : (VmGroupStatus.DeepCopyInto (newStatus h).2 p (newStatus h).1).isSome :=
    isSome_of_map (f := fun h1 => (some (newStatus h).1, h1)) hd
  refine ⟨?_, by simp [readStatus, newStatus], hi, hd⟩
  simp only [VmGroupStatus.DeepCopyInto, Option.bind_eq_bind] at hi
  exact isSome_of_bind hi

theorem operatorDeepCopy_total (h : Heap D) (p : OperatorPtr)
    (hp : (readOperator h p).isSome) :
    (readOperator (newOperator h).2 p).isSome ∧
    (readOperator (newOperator h).2 (newOperator h).1).isSome ∧
    (VmOperatorStatus.DeepCopyInto (newOperator h).2 p (newOperator h).1).isSome ∧
    (VmOperatorStatus.DeepCopy h (some p)).isSome := by
  obtain ⟨v, hv⟩ := Option.isSome_iff_exists.mp hp
  have hd : (VmOperatorStatus.DeepCopy h (some p)).isSome := by
    rw [operatorDeepCopy_eq hv]
    rfl
  have hi : (VmOperatorStatus.DeepCopyInto (newOperator h).2 p (newOperator h).1).isSome :=
    isSome_of_map (f := fun h1 => (some (newOperator h).1, h1)) hd
  exact ⟨isSome_of_bind hi, by simp [readOperator, newOperator], hi, hd⟩

/-- C12: the clone operations are total.  `DeepCopy` and `DeepCopyObject`
of a nil receiver return (nil, with the heap as it is).  For a valid non-nil
receiver of each type, the `DeepCopyInto` call that `DeepCopy` makes has a
valid source and a valid, newly allocated destination and returns, and so do
`DeepCopy` and `DeepCopyObject`.  In `VmGroupList.DeepCopyInto` (for any
valid source with non-nil `Items` of length `n` and any valid destination,
in any heap, so also the one `DeepCopy` calls it in) the loop starts in a
heap `g` where the destination array was allocated with `n` elements and
both `Items` have length `n`; the call is the run of `n` iterations from
`g`, which returns; and for every `i < n`, iteration `i` starts after `i`
iterations, both `&(*in)[i]` and `&(*out)[i]` are in range and valid, the
element clone returns, and its result is the heap after `i + 1`
iterations. -/
theorem DeepCopy_total (F : Framework D) (h : Heap D) :
    (VmGroup.DeepCopy F h none = some (none, h) ∧
      VmGroup.DeepCopyObject F h none = some (Object.nil, h) ∧
      VmGroupList.DeepCopy F h none = some (none, h) ∧
      VmGroupList.DeepCopyObject F h none = some (Object.nil, h) ∧
      VmGroupSpec.DeepCopy h none = some (none, h) ∧
      VmGroupStatus.DeepCopy h none = some (none, h) ∧
      VmOperatorStatus.DeepCopy h none = some (none, h)) ∧
    (∀ p, (readGroup h p).isSome →
      (readGroup (newGroup h).2 p).isSome ∧
      (readGroup (newGroup h).2 (newGroup h).1).isSome ∧
      (VmGroup.DeepCopyInto F (newGroup h).2 p (newGroup h).1).isSome ∧
      (VmGroup.DeepCopy F h (some p)).isSome ∧
      (VmGroup.DeepCopyObject F h (some p)).isSome) ∧
    (∀ a, ValidList h a →
      (readList (newList h).2 a).isSome ∧
      (readList (newList h).2 (newList h).1).isSome ∧
      (VmGroupList.DeepCopyInto F (newList h).2 a (newList h).1).isSome ∧
      (VmGroupList.DeepCopy F h (some a)).isSome ∧
      (VmGroupList.DeepCopyObject F h (some a)).isSome) ∧
    (∀ p, (readSpec h p).isSome →
      (readSpec (newSpec h).2 p).isSome ∧
      (readSpec (newSpec h).2 (newSpec h).1).isSome ∧
      (VmGroupSpec.DeepCopyInto (newSpec h).2 p (newSpec h).1).isSome ∧
      (VmGroupSpec.DeepCopy h (some p)).isSome) ∧
    (∀ p, (readStatus h p).isSome →
      (readStatus (newStatus h).2 p).isSome ∧
      (readStatus (newStatus h).2 (newStatus h).1).isSome ∧
      (VmGroupStatus.DeepCopyInto (newStatus h).2 p (newStatus h).1).isSome ∧
      (VmGroupStatus.DeepCopy h (some p)).isSome) ∧
    (∀ p, (readOperator h p).isSome →
      (readOperator (newOperator h).2 p).isSome ∧
      (readOperator (newOperator h).2 (newOperator h).1).isSome ∧
      (VmOperatorStatus.DeepCopyInto (newOperator h).2 p (newOperator h).1).isSome ∧
      (VmOperatorStatus.DeepCopy h (some p)).isSome) ∧
    (∀ a b L s, readList h a = some L → L.Items = some s → (readItems h s).isSome →
      (readList h b).isSome →
      ∃ g, g.arrays = h.arrays ++ [List.replicate s.len (zeroGroup D)] ∧
        ItemsInRange g a b s.len ∧
        VmGroupList.DeepCopyInto F h a b = VmGroupList.copyItems F a b s.len 0 g ∧
        (VmGroupList.copyItems F a b s.len 0 g).isSome ∧
        ∀ i, i < s.len →
          ∃ gi src dst gi', VmGroupList.copyItems F a b i 0 g = some gi ∧
            itemPtr gi a i = some src ∧ itemPtr gi b i = some dst ∧
            (readGroup gi src).isSome ∧ (readGroup gi dst).isSome ∧
            VmGroup.DeepCopyInto F gi src dst = some gi' ∧
            VmGroupList.copyItems F a b (i + 1) 0 g = some gi') := by
  refine ⟨⟨rfl, rfl, rfl, rfl, rfl, rfl, rfl⟩, groupDeepCopy_total F h,
    listDeepCopy_total F h, specDeepCopy_total h, statusDeepCopy_total h,
    operatorDeepCopy_total h, ?_⟩
  intro a b L s hL hI hs hb
  obtain ⟨heq, hr⟩ := listDeepCopyInto_loop F hL hI hs hb
  obtain ⟨g', hrun, _⟩ := copyItems_run F s.len 0 _ hr (by omega)
  exact ⟨_, rfl, hr, heq, by rw [hrun]; rfl, copyItems_iteration F hr⟩

/-- C12 in the demo heap, with the copying framework clone: `DeepCopy` and
`DeepCopyObject` of the object and of the first list return, and both
iterations of the loop of the first list cloned over the second are in
range. -/
theorem DeepCopy_total_witness :
    ((VmGroup.DeepCopy (Framework.copying natDecls) demoHeap (some (.obj 0))).isSome ∧
      (VmGroup.DeepCopyObject (Framework.copying natDecls) demoHeap
        (some (.obj 0))).isSome) ∧
    ((VmGroupList.DeepCopy (Framework.copying natDecls) demoHeap (some 0)).isSome ∧
      (VmGroupList.DeepCopyObject (Framework.copying natDecls) demoHeap (some 0)).isSome) ∧
    (∃ g, VmGroupList.DeepCopyInto (Framework.copying natDecls) demoHeap 0 1
        = VmGroupList.copyItems (Framework.copying natDecls) 0 1 2 0 g ∧
      (VmGroupList.copyItems (Framework.copying natDecls) 0 1 2 0 g).isSome ∧
      ∀ i, i < 2 →
        ∃ gi src dst, VmGroupList.copyItems (Framework.copying natDecls) 0 1 i 0 g
            = some gi ∧
          itemPtr gi 0 i = some src ∧ itemPtr gi 1 i = some dst ∧
          (readGroup gi src).isSome ∧ (readGroup gi dst).isSome) :=
  ⟨⟨((DeepCopy_total (Framework.copying natDecls) demoHeap).2.1 (.obj 0) rfl).2.2.2.1,
    ((DeepCopy_total (Framework.copying natDecls) demoHeap).2.1 (.obj 0) rfl).2.2.2.2⟩,
   ⟨((DeepCopy_total (Framework.copying natDecls) demoHeap).2.2.1 0
      ⟨⟨7, ⟨8, [1]⟩, some ⟨0, 1, 2⟩⟩, rfl, fun s hs => by
        cases hs
        rfl⟩).2.2.2.1,
    ((DeepCopy_total (Framework.copying natDecls) demoHeap).2.2.1 0
      ⟨⟨7, ⟨8, [1]⟩, some ⟨0, 1, 2⟩⟩, rfl, fun s hs => by
        cases hs
        rfl⟩).2.2.2.2⟩,
   by
    obtain ⟨g, _, _, h3, h4, h5⟩ :=
      (DeepCopy_total (Framework.copying natDecls) demoHeap).2.2.2.2.2.2 0 1
        ⟨7, ⟨8, [1]⟩, some ⟨0, 1, 2⟩⟩ ⟨0, 1, 2⟩ rfl rfl rfl rfl
    refine ⟨g, h3, h4, ?_⟩
    intro i hi
    obtain ⟨gi, src, dst, _, e1, e2, e3, e4, e5, _, _⟩ := h5 i hi
    exact ⟨gi, src, dst, e1, e2, e3, e4, e5⟩⟩

/-! ### Overwriting the destination -/

theorem listDeepCopyInto_value_nil (F : Framework D) {h : Heap D} {a b : Addr}
    {L : VmGroupList D} (hL : readList h a = some L) (hI : L.Items = none)
    (hb : (readList h b).isSome) (hab : b ≠ a) :
    ∃ g O, VmGroupList.DeepCopyInto F h a b = some g ∧ readList g b = some O ∧
      O.Items = none ∧
      listValue g b = some
        ⟨L.TypeMeta,
          (F.listMetaDeepCopyInto L.ListMeta L.ListMeta h.cells).1.value
            (F.listMetaDeepCopyInto L.ListMeta L.ListMeta h.cells).2,
          none⟩ := by
  obtain ⟨o, ho⟩ := Option.isSome_iff_exists.mp hb
  have hbl := readList_lt ho
  have hr : readList
      ({ h with
          lists := h.lists.set b
            ⟨L.TypeMeta, (F.listMetaDeepCopyInto L.ListMeta L.ListMeta h.cells).1, none⟩
          cells := (F.listMetaDeepCopyInto L.ListMeta L.ListMeta h.cells).2 } : Heap D) b
      = some ⟨L.TypeMeta, (F.listMetaDeepCopyInto L.ListMeta L.ListMeta h.cells).1, none⟩ := by
    simp [readList, hbl]
  refine ⟨_, _, listDeepCopyInto_nil_items F hL hI hbl hab, hr, rfl, ?_⟩
  rw [listValue, hr]
  rfl

theorem listDeepCopyInto_value_items (F : Framework D) {h : Heap D} {a b : Addr}
    {L : VmGroupList D} {s : Slice} {xs : List (VmGroup D)}
    (hL : readList h a = some L) (hI : L.Items = some s)
    (hxs : readItems h s = some xs) (hb : (readList h b).isSome) (hab : b ≠ a) :
    ∃ g O t, VmGroupList.DeepCopyInto F h a b = some g ∧ readList g b = some O ∧
      O.Items = some t ∧ t.len = s.len ∧
      readItems g t
        = some (cloneItems F (F.listMetaDeepCopyInto L.ListMeta L.ListMeta h.cells).2 xs).1 ∧
      listValue g b = some
        ⟨L.TypeMeta,
          (F.listMetaDeepCopyInto L.ListMeta L.ListMeta h.cells).1.value
            (cloneItems F (F.listMetaDeepCopyInto L.ListMeta L.ListMeta h.cells).2 xs).2,
          some ((cloneItems F
              (F.listMetaDeepCopyInto L.ListMeta L.ListMeta h.cells).2 xs).1.map
            (VmGroup.value
              (cloneItems F
                (F.listMetaDeepCopyInto L.ListMeta L.ListMeta h.cells).2 xs).2))⟩ := by
  obtain ⟨o, ho⟩ := Option.isSome_iff_exists.mp hb
  have hbl := readList_lt ho
  have hr : readList
      ({ h with
          lists := h.lists.set b
            ⟨L.TypeMeta, (F.listMetaDeepCopyInto L.ListMeta L.ListMeta h.cells).1,
              some ⟨h.arrays.length, 0, s.len⟩⟩
          arrays := h.arrays ++
            [(cloneItems F (F.listMetaDeepCopyInto L.ListMeta L.ListMeta h.cells).2 xs).1]
          cells :=
            (cloneItems F (F.listMetaDeepCopyInto L.ListMeta L.ListMeta h.cells).2 xs).2 }
        : Heap D) b
      = some ⟨L.TypeMeta, (F.listMetaDeepCopyInto L.ListMeta L.ListMeta h.cells).1,
          some ⟨h.arrays.length, 0, s.len⟩⟩ := by
    simp [readList, hbl]
  have hit : readItems
      ({ h with
          lists := h.lists.set b
            ⟨L.TypeMeta, (F.listMetaDeepCopyInto L.ListMeta L.ListMeta h.cells).1,
              some ⟨h.arrays.length, 0, s.len⟩⟩
          arrays := h.arrays ++
            [(cloneItems F (F.listMetaDeepCopyInto L.ListMeta L.ListMeta h.cells).2 xs).1]
          cells :=
            (cloneItems F (F.listMetaDeepCopyInto L.ListMeta L.ListMeta h.cells).2 xs).2 }
        : Heap D) ⟨h.arrays.length, 0, s.len⟩
      = some
          (cloneItems F (F.listMetaDeepCopyInto L.ListMeta L.ListMeta h.cells).2 xs).1 := by
    have := readItems_fresh h
      (cloneItems F (F.listMetaDeepCopyInto L.ListMeta L.ListMeta h.cells).2 xs).1
      (h.lists.set b
        ⟨L.TypeMeta, (F.listMetaDeepCopyInto L.ListMeta L.ListMeta h.cells).1,
          some ⟨h.arrays.length, 0, s.len⟩⟩)
      (cloneItems F (F.listMetaDeepCopyInto L.ListMeta L.ListMeta h.cells).2 xs).2
    rw [cloneItems_length, readItems_length hxs] at this
    exact this
  refine ⟨_, _, ⟨h.arrays.length, 0, s.len⟩,
    listDeepCopyInto_items F hL hI hxs hbl hab, hr, rfl, rfl, hit, ?_⟩
  rw [listValue, hr]
  simp only [Option.some_bind, hit, Option.map_some']

/-- C13 at the failing input `L.DeepCopyInto(L)`, a destination that is the
source itself, with a framework clone that fully overwrites its
destination.  The first list of the demo heap holds the elements
`demoGroup`, `demoGroup2`.  Cloned into itself it ends with `Items` of
length two whose elements are both the zero `VmGroup`: `*out =
make([]VmGroup, len(*in))` has replaced `in.Items` before the loop reads it,
so the loop clones zero values and the elements of the receiver are lost.
Cloned into the second list, a destination that is not the source, that
list ends with two elements that have the values of `demoGroup` and
`demoGroup2`.  The two destinations do not hold the same elements: their
`TypeMeta` are `0, 0` in the first and `1, 11` in the second. -/
theorem DeepCopyInto_self_copy_zeroes_items :
    (Framework.copying natDecls).Overwrites ∧
    readItems demoHeap ⟨0, 1, 2⟩ = some [demoGroup, demoGroup2] ∧
    (∃ g O t, VmGroupList.DeepCopyInto (Framework.copying natDecls) demoHeap 0 0 = some g ∧
      readList g 0 = some O ∧ O.Items = some t ∧ t.len = 2 ∧
      readItems g t = some [zeroGroup natDecls, zeroGroup natDecls] ∧
      (readItems g t).map (List.map (fun x => x.TypeMeta)) = some [0, 0]) ∧
    (∃ g O t ys, VmGroupList.DeepCopyInto (Framework.copying natDecls) demoHeap 0 1 = some g ∧
      readList g 1 = some O ∧ O.Items = some t ∧ t.len = 2 ∧
      readItems g t = some ys ∧
      ys.map (VmGroup.value g.cells)
        = [demoGroup, demoGroup2].map (VmGroup.value demoHeap.cells) ∧
      ys.map (fun x => x.TypeMeta) = [1, 11]) :=
  ⟨⟨fun _ _ _ _ => rfl, fun _ _ _ _ => rfl⟩, rfl,
   ⟨_, _, _, rfl, rfl, rfl, rfl, rfl, rfl⟩,
   ⟨_, _, _, _, rfl, rfl, rfl, rfl, rfl, rfl, rfl⟩⟩

theorem groupDeepCopyInto_result (F : Framework D) {h : Heap D} {inp out : GroupPtr}
    {v : VmGroup D} (hin : readGroup h inp = some v) (hout : (readGroup h out).isSome) :
    ∃ g, VmGroup.DeepCopyInto F h inp out = some g ∧
      readGroup g out = some
        { v with ObjectMeta :=
            (F.objectMetaDeepCopyInto v.ObjectMeta v.ObjectMeta h.cells).1 } ∧
      g.cells = (F.objectMetaDeepCopyInto v.ObjectMeta v.ObjectMeta h.cells).2 := by
  obtain ⟨o, ho⟩ := Option.isSome_iff_exists.mp hout
  have ho' : readGroup
      ({ h with cells := (F.objectMetaDeepCopyInto v.ObjectMeta v.ObjectMeta h.cells).2 }
        : Heap D) out = some o := by
    rw [readGroup_cells]
    exact ho
  exact ⟨_, groupDeepCopyInto_eq F hin ho, readGroup_put_same ho' _,
    putGroup_cells_get _ _ _⟩

/-- Away from a destination that is the source, `DeepCopyInto` overwrites its
destination.  Take two heaps that hold the same source struct over the same
backing stores and are otherwise arbitrary, and in each a valid destination
that is not the source, with whatever content.  For `VmGroup`, both calls
return and leave the same struct and the same value in the two
destinations.  For `VmGroupList`, with a source whose `Items` hold the same
elements in both heaps, both calls return and leave the same value in the
two destinations; if the `Items` of the source are nil, those of both
destinations are nil, and if they have `n` elements, those of both
destinations have exactly `n` elements, the same in both.  Runs over
different backing stores (such as two calls made one after the other) are
not covered. -/
theorem DeepCopyInto_distinct_destinations (F : Framework D) :
    (∀ (h1 h2 : Heap D) inp1 inp2 out1 out2 v,
      readGroup h1 inp1 = some v → readGroup h2 inp2 = some v → h1.cells = h2.cells →
      (readGroup h1 out1).isSome → (readGroup h2 out2).isSome →
      out1 ≠ inp1 → out2 ≠ inp2 →
      ∃ g1 g2, VmGroup.DeepCopyInto F h1 inp1 out1 = some g1 ∧
        VmGroup.DeepCopyInto F h2 inp2 out2 = some g2 ∧
        readGroup g1 out1 = readGroup g2 out2 ∧ (readGroup g1 out1).isSome ∧
        g1.cells = g2.cells ∧ groupValue g1 out1 = groupValue g2 out2) ∧
    (∀ (h1 h2 : Heap D) a1 a2 b1 b2 L,
      readList h1 a1 = some L → readList h2 a2 = some L →
      (∀ s, L.Items = some s → (readItems h1 s).isSome ∧ readItems h2 s = readItems h1 s) →
      h1.cells = h2.cells →
      (readList h1 b1).isSome → (readList h2 b2).isSome → b1 ≠ a1 → b2 ≠ a2 →
      ∃ g1 g2 O1 O2, VmGroupList.DeepCopyInto F h1 a1 b1 = some g1 ∧
        VmGroupList.DeepCopyInto F h2 a2 b2 = some g2 ∧
        readList g1 b1 = some O1 ∧ readList g2 b2 = some O2 ∧
        listValue g1 b1 = listValue g2 b2 ∧ (listValue g1 b1).isSome ∧
        (L.Items = none → O1.Items = none ∧ O2.Items = none) ∧
        (∀ s, L.Items = some s →
          ∃ t1 t2 ys, O1.Items = some t1 ∧ O2.Items = some t2 ∧
            t1.len = s.len ∧ t2.len = s.len ∧
            readItems g1 t1 = some ys ∧ readItems g2 t2 = some ys ∧
            ys.length = s.len)) := by
  constructor
  · intro h1 h2 inp1 inp2 out1 out2 v hin1 hin2 hc ho1 ho2 _ _
    obtain ⟨g1, d1, r1, c1⟩ := groupDeepCopyInto_result F hin1 ho1
    obtain ⟨g2, d2, r2, c2⟩ := groupDeepCopyInto_result F hin2 ho2
    rw [hc] at r1 c1
    refine ⟨g1, g2, d1, d2, r1.trans r2.symm, by rw [r1]; rfl, c1.trans c2.symm, ?_⟩
    rw [groupValue, groupValue, r1, r2, c1, c2]
  · intro h1 h2 a1 a2 b1 b2 L hL1 hL2 hit hc hb1 hb2 hn1 hn2
    cases hi : L.Items with
    | none =>
      obtain ⟨g1, O1, d1, r1, i1, v1⟩ := listDeepCopyInto_value_nil F hL1 hi hb1 hn1
      obtain ⟨g2, O2, d2, r2, i2, v2⟩ := listDeepCopyInto_value_nil F hL2 hi hb2 hn2
      rw [hc] at v1
      refine ⟨g1, g2, O1, O2, d1, d2, r1, r2, v1.trans v2.symm, by rw [v1]; rfl,
        fun _ => ⟨i1, i2⟩, ?_⟩
      intro s hs
      cases hs
    | some s =>
      obtain ⟨hs1, hs2⟩ := hit s hi
      obtain ⟨xs, hxs1⟩ := Option.isSome_iff_exists.mp hs1
      have hxs2 : readItems h2 s = some xs := hs2.trans hxs1
      obtain ⟨g1, O1, t1, d1, r1, i1, l1, e1, v1⟩ :=
        listDeepCopyInto_value_items F hL1 hi hxs1 hb1 hn1
      obtain ⟨g2, O2, t2, d2, r2, i2, l2, e2, v2⟩ :=
        listDeepCopyInto_value_items F hL2 hi hxs2 hb2 hn2
      rw [hc] at v1 e1
      refine ⟨g1, g2, O1, O2, d1, d2, r1, r2, v1.trans v2.symm, by rw [v1]; rfl, ?_, ?_⟩
      · intro hn
        cases hn
      · intro s' hs'
        cases hs'
        exact ⟨t1, t2, _, i1, i2, l1, l2, e1, e2, by
          rw [cloneItems_length, readItems_length hxs1]⟩

/-! ### Redundant reassignments -/

theorem writeGroup_none {h : Heap D} {p : GroupPtr} (hp : readGroup h p = none)
    (v : VmGroup D) : writeGroup h p v = none := by
  cases p with
  | obj a =>
    have ha : ¬ a < h.groups.length := by
      intro hlt
      simp [readGroup, List.getElem?_eq_getElem hlt] at hp
    simp [writeGroup, ha]
  | elem arr i =>
    simp only [readGroup] at hp
    cases hx : h.arrays[arr]? with
    | none => simp [writeGroup, hx]
    | some xs =>
      simp only [hx, Option.some_bind] at hp
      have hi : ¬ i < xs.length := by
        intro hlt
        simp [List.getElem?_eq_getElem hlt] at hp
      simp [writeGroup, hx, hi]

theorem groupDeepCopyIntoReduced_eq (F : Framework D) {h : Heap D} {inp out : GroupPtr}
    {v o : VmGroup D} (hin : readGroup h inp = some v) (hout : readGroup h out = some o) :
    VmGroup.DeepCopyIntoReduced F h inp out
      = some (putGroup
          { h with cells := (F.objectMetaDeepCopyInto v.ObjectMeta v.ObjectMeta h.cells).2 }
          out
          { v with ObjectMeta :=
              (F.objectMetaDeepCopyInto v.ObjectMeta v.ObjectMeta h.cells).1 }) := by
  obtain ⟨tm, om, sp, st⟩ := v
  have same : ∀ (g : Heap D) (w : VmGroup D), (readGroup g out).isSome →
      readGroup (putGroup g out w) out = some w := by
    intro g w hg
    obtain ⟨x, hx⟩ := Option.isSome_iff_exists.mp hg
    exact readGroup_put_same hx w
  have wr : ∀ (g : Heap D) (w : VmGroup D), (readGroup g out).isSome →
      writeGroup g out w = some (putGroup g out w) := by
    intro g w hg
    obtain ⟨x, hx⟩ := Option.isSome_iff_exists.mp hg
    exact writeGroup_eq_put hx w
  have ho : (readGroup h out).isSome := by simp [hout]
  by_cases hio : inp = out
  · subst hio
    simp [VmGroup.DeepCopyIntoReduced, Option.bind_eq_bind, hin, Option.some_bind,
      modifyGroup, same, wr, putGroup_put, readGroup_cells, cells_putGroup,
      putGroup_cells_get]
  · have other : ∀ (g : Heap D) (w : VmGroup D),
        readGroup (putGroup g out w) inp = readGroup g inp :=
      fun g w => readGroup_put_other g hio w
    simp [VmGroup.DeepCopyIntoReduced, Option.bind_eq_bind, hin, Option.some_bind,
      modifyGroup, same, wr, other, ho, putGroup_put, readGroup_cells, cells_putGroup,
      putGroup_cells_get]

theorem groupDeepCopyInto_reduced (F : Framework D) (h : Heap D) (inp out : GroupPtr) :
    VmGroup.DeepCopyInto F h inp out = VmGroup.DeepCopyIntoReduced F h inp out := by
  cases hin : readGroup h inp with
  | none => simp [VmGroup.DeepCopyInto, VmGroup.DeepCopyIntoReduced, hin]
  | some v =>
    cases hout : readGroup h out with
    | none =>
      simp [VmGroup.DeepCopyInto, VmGroup.DeepCopyIntoReduced, hin, writeGroup_none hout]
    | some o => rw [groupDeepCopyInto_eq F hin hout, groupDeepCopyIntoReduced_eq F hin hout]

theorem putGroup_read {h : Heap D} {p : GroupPtr} {w : VmGroup D}
    (hp : readGroup h p = some w) : putGroup h p w = h := by
  cases p with
  | obj a =>
    simp only [readGroup] at hp
    simp [putGroup, set_of_getElem? hp]
  | elem arr i =>
    simp only [readGroup] at hp
    cases hx : h.arrays[arr]? with
    | none => simp [hx] at hp
    | some xs =>
      simp only [hx, Option.some_bind] at hp
      simp [putGroup, hx, set_of_getElem? hp, set_of_getElem? hx]

theorem listDeepCopyInto_reduced (F : Framework D) (h : Heap D) (inp out : Addr) :
    VmGroupList.DeepCopyInto F h inp out = VmGroupList.DeepCopyIntoReduced F h inp out := by
  cases hin : readList h inp with
  | none => simp [VmGroupList.DeepCopyInto, VmGroupList.DeepCopyIntoReduced, hin]
  | some l =>
    by_cases hout : out < h.lists.length
    · obtain ⟨tm, lm, it⟩ := l
      have e1 : readList ({ h with lists := h.lists.set out ⟨tm, lm, it⟩ } : Heap D) inp
          = some ⟨tm, lm, it⟩ := by
        by_cases hio : out = inp
        · subst hio
          simp [readList, hout]
        · simpa [readList, List.getElem?_set_ne hio] using hin
      have e2 : modifyList ({ h with lists := h.lists.set out ⟨tm, lm, it⟩ } : Heap D) out
          (fun o => { o with TypeMeta := tm })
          = some { h with lists := h.lists.set out ⟨tm, lm, it⟩ } := by
        simp [modifyList, readList, writeList, hout]
      simp only [VmGroupList.DeepCopyInto, VmGroupList.DeepCopyIntoReduced,
        Option.bind_eq_bind, hin, Option.some_bind, writeList, hout, if_true, e1, e2]
    · simp [VmGroupList.DeepCopyInto, VmGroupList.DeepCopyIntoReduced, hin, writeList, hout]

theorem statusDeepCopyInto_reduced (h : Heap D) (inp out : StatusPtr) :
    VmGroupStatus.DeepCopyInto h inp out = VmGroupStatus.DeepCopyIntoReduced h inp out := by
  cases hin : readStatus h inp with
  | none => simp [VmGroupStatus.DeepCopyInto, VmGroupStatus.DeepCopyIntoReduced, hin]
  | some v =>
    obtain ⟨op, fs⟩ := v
    cases hw : writeStatus h out ⟨op, fs⟩ with
    | none => simp [VmGroupStatus.DeepCopyInto, VmGroupStatus.DeepCopyIntoReduced, hin, hw]
    | some h1 =>
      have e1 : readStatus h1 out = some ⟨op, fs⟩ := by
        cases out with
        | obj b =>
          simp only [writeStatus] at hw
          by_cases hb : b < h.statuses.length
          · simp only [hb, if_true, Option.some.injEq] at hw
            subst hw
            simp [readStatus, hb]
          · simp [hb] at hw
        | ofGroup g =>
          simp only [writeStatus, modifyGroup] at hw
          cases hg : readGroup h g with
          | none => simp [hg] at hw
          | some w =>
            simp only [hg, Option.some_bind, writeGroup_eq_put hg, Option.some.injEq] at hw
            subst hw
            simp [readStatus, readGroup_put_same hg]
      have e2 : readStatus h1 inp = some ⟨op, fs⟩ := by
        by_cases hio : inp = out
        · rw [hio]
          exact e1
        · cases out with
          | obj b =>
            simp only [writeStatus] at hw
            by_cases hb : b < h.statuses.length
            · simp only [hb, if_true, Option.some.injEq] at hw
              subst hw
              cases inp with
              | obj a =>
                have hab : b ≠ a := fun e => hio (by rw [e])
                simpa [readStatus, List.getElem?_set_ne hab] using hin
              | ofGroup g1 => cases g1 <;> simpa [readStatus, readGroup] using hin
            · simp [hb] at hw
          | ofGroup g =>
            simp only [writeStatus, modifyGroup] at hw
            cases hg : readGroup h g with
            | none => simp [hg] at hw
            | some w =>
              simp only [hg, Option.some_bind, writeGroup_eq_put hg, Option.some.injEq] at hw
              subst hw
              cases inp with
              | obj a => cases g <;> simpa [readStatus, putGroup] using hin
              | ofGroup g1 =>
                have hne : g1 ≠ g := fun e => hio (by rw [e])
                simpa [readStatus, readGroup_put_other _ hne] using hin
      have e3 : modifyStatus h1 out (fun o => { o with VmOperator := op }) = some h1 := by
        cases out with
        | obj b =>
          simp only [readStatus] at e1
          have hb : b < h1.statuses.length := by
            by_contra hc
            simp [List.getElem?_eq_none (Nat.le_of_not_lt hc)] at e1
          simp [modifyStatus, readStatus, writeStatus, e1, hb, set_of_getElem? e1]
        | ofGroup g =>
          simp only [readStatus] at e1
          cases hg : readGroup h1 g with
          | none => simp [hg] at e1
          | some w =>
            obtain ⟨wt, wm, wsp, wst⟩ := w
            simp only [hg, Option.map_some', Option.some.injEq] at e1
            subst e1
            simp [modifyStatus, readStatus, writeStatus, modifyGroup, hg,
              writeGroup_eq_put hg, putGroup_read hg]
      simp only [VmGroupStatus.DeepCopyInto, VmGroupStatus.DeepCopyIntoReduced,
        Option.bind_eq_bind, hin, Option.some_bind, hw, e2, e3]

/-- C14: the per-field assignments after the whole-struct copy are
redundant: for every heap and all pointers `in` and `out` (equal or not),
`VmGroup.DeepCopyInto` is the function that does only `*out = *in` and the
`ObjectMeta` deep copy into `out.ObjectMeta`, `VmGroupList.DeepCopyInto` is
the same function without its `TypeMeta` reassignment, and
`VmGroupStatus.DeepCopyInto` is the plain copy `*out = *in`; each pair
fails on the same inputs and returns the same heap on all others. -/
theorem DeepCopyInto_reassignments_redundant (F : Framework D) (h : Heap D) :
    (∀ inp out,
      VmGroup.DeepCopyInto F h inp out = VmGroup.DeepCopyIntoReduced F h inp out) ∧
    (∀ inp out,
      VmGroupList.DeepCopyInto F h inp out = VmGroupList.DeepCopyIntoReduced F h inp out) ∧
    (∀ inp out,
      VmGroupStatus.DeepCopyInto h inp out = VmGroupStatus.DeepCopyIntoReduced h inp out) :=
  ⟨groupDeepCopyInto_reduced F h, listDeepCopyInto_reduced F h, statusDeepCopyInto_reduced h⟩

/-- C14 in the demo heap: both functions of each pair return a heap, the
same one, on a `VmGroup` copied over an element of the backing array, a list
copied over another, and a `VmGroupStatus` copied into the `Status` field of
a `VmGroup`. -/
theorem DeepCopyInto_reassignments_redundant_witness :
    (∃ g, VmGroup.DeepCopyIntoReduced (Framework.copying natDecls) demoHeap
        (.obj 0) (.elem 0 3) = some g ∧
      VmGroup.DeepCopyInto (Framework.copying natDecls) demoHeap (.obj 0) (.elem 0 3)
        = some g) ∧
    (∃ g, VmGroupList.DeepCopyIntoReduced (Framework.copying natDecls) demoHeap 0 1
        = some g ∧
      VmGroupList.DeepCopyInto (Framework.copying natDecls) demoHeap 0 1 = some g) ∧
    (∃ g, VmGroupStatus.DeepCopyIntoReduced demoHeap (.obj 0) (.ofGroup (.obj 0))
        = some g ∧
      VmGroupStatus.DeepCopyInto demoHeap (.obj 0) (.ofGroup (.obj 0)) = some g) :=
  ⟨⟨_, rfl,
      ((DeepCopyInto_reassignments_redundant (Framework.copying natDecls) demoHeap).1
        (.obj 0) (.elem 0 3)).trans rfl⟩,
   ⟨_, rfl,
      ((DeepCopyInto_reassignments_redundant (Framework.copying natDecls) demoHeap).2.1
        0 1).trans rfl⟩,
   ⟨_, rfl,
      ((DeepCopyInto_reassignments_redundant (Framework.copying natDecls) demoHeap).2.2
        (.obj 0) (.ofGroup (.obj 0))).trans rfl⟩⟩

end Claims

end V1alpha1
